import Mathlib

/-!
Verification development for the Architecture Extraction & Recovery Pipeline
(packages/core/src/fileSelector.ts and packages/core/src/ollamaClient.ts).

The TypeScript sources are shallowly embedded as executable Lean definitions:
pure functions become Lean functions, JavaScript `Map`/`Set` objects become
association lists / lists with insertion-order semantics, the specific regular
expressions used by the source are translated into deterministic character
scanners with the same matching behaviour, and the decoder's try/catch
structure is translated into the `Except` monad (a thrown exception is an
`Except.error`).  JavaScript numbers appearing in the pipeline (confidence
values, counts) are modelled as rationals/naturals; the only float expressions
in scope, `Math.floor(n * 0.10)` and `modules.length * 0.5`, agree exactly
with `n / 10` (integer division) and the rational comparison used here for all
relevant magnitudes.
-/

namespace CodeAtlas

/-! ## JavaScript-style string helpers -/

/-- Single quote character (written via its code point). -/
def quoteChar : Char := Char.ofNat 39

/-- Whitespace class of JavaScript regular expressions (`\s`), restricted to
the ASCII members plus NBSP that can appear in the texts handled here. -/
def isJsWs (c : Char) : Bool :=
  c = ' ' || c = '\t' || c = '\n' || c = '\r' || c = Char.ofNat 11 || c = Char.ofNat 12 || c = Char.ofNat 160

/-- Word-character class of JavaScript regular expressions (`\w`). -/
def isWordChar (c : Char) : Bool :=
  ('a' ≤ c && c ≤ 'z') || ('A' ≤ c && c ≤ 'Z') || ('0' ≤ c && c ≤ '9') || c = '_'

/-- Model of `String.prototype.toLowerCase` (ASCII case folding). -/
def jsLower (s : String) : String := String.mk (s.toList.map Char.toLower)

/-- Model of `String.prototype.trim`. -/
def jsTrim (s : String) : String :=
  String.mk (((s.toList.dropWhile isJsWs).reverse.dropWhile isJsWs).reverse)

/-- Kernel-reducible `endsWith`. -/
def strEndsWith (s suffix : String) : Bool := suffix.toList.isSuffixOf s.toList

/-- Kernel-reducible `startsWith`. -/
def strStartsWith (s pre : String) : Bool := pre.toList.isPrefixOf s.toList

/-- JavaScript `String.prototype.split` with a one-character separator
(`"".split(sep)` is `[""]`). -/
def splitOnCharAux (sep : Char) : List Char → List Char → List (List Char)
  | acc, [] => [acc.reverse]
  | acc, c :: r => if c = sep then acc.reverse :: splitOnCharAux sep [] r else splitOnCharAux sep (c :: acc) r

/-- JavaScript `s.split(sep)` for a single-character separator. -/
def splitOnChar (sep : Char) (s : String) : List String :=
  (splitOnCharAux sep [] s.toList).map String.mk

/-- Model of `String.prototype.includes` (substring test). -/
def strContains (hay needle : String) : Bool :=
  let h := hay.toList
  let n := needle.toList
  (List.range (h.length + 1)).any (fun i => n.isPrefixOf (h.drop i))

/-- Last path segment: `s.split('/').pop() || ''`. -/
def lastSeg (s : String) : String := ((splitOnChar '/' s).getLast?).getD ""

/-- Model of `s.substring(0, s.lastIndexOf('/'))`, which is `""` when the
string holds no slash (`lastIndexOf` returns `-1`). -/
def dropAfterLastSlash (s : String) : String :=
  let parts := splitOnChar '/' s
  if parts.length ≤ 1 then "" else String.intercalate "/" parts.dropLast

/-- Insertion-ordered `Set.add` on a list of strings. -/
def addIfAbsent (l : List String) (x : String) : List String :=
  if l.contains x then l else l ++ [x]

/-- The source-file extensions recognised by `/\.(ts|tsx|js|jsx)$/`. -/
def sourceExts : List String := ["ts", "tsx", "js", "jsx"]

/-- Model of `s.replace(/\.(ts|tsx|js|jsx)$/, '')` (case sensitive). -/
def stripSrcExt (s : String) : String :=
  if strEndsWith s ".tsx" then s.dropRight 4
  else if strEndsWith s ".jsx" then s.dropRight 4
  else if strEndsWith s ".ts" then s.dropRight 3
  else if strEndsWith s ".js" then s.dropRight 3
  else s

/-- Model of `s.replace(/\.[^/.]+$/, '')`: strip a final dot-extension whose
characters contain neither `/` nor `.`. -/
def stripLastExt (s : String) : String :=
  let cs := s.toList
  let ext := cs.reverse.takeWhile (fun c => c ≠ '.' && c ≠ '/')
  match cs.reverse.drop ext.length with
  | '.' :: rest => if ext.isEmpty then s else String.mk rest.reverse
  | _ => s

/-! ## Data model (types.ts) -/

/-- `FileContext` from types.ts: one input source file. -/
structure FileContext where
  path : String
  content : String
deriving DecidableEq, Repr

/-- `Module` from types.ts (a `ModuleRecord` in the specification). -/
structure Module where
  name : String
  path : String
  type : String
  layer : String
  description : String
deriving DecidableEq, Repr

/-- `Relationship` from types.ts.  The source fields `from`/`to` are reserved
words in Lean and are embedded as `rfrom`/`rto`. -/
structure Relationship where
  rfrom : String
  rto : String
  type : String
  strength : String
  description : String
deriving DecidableEq, Repr

/-- Architectural pattern classification. -/
structure Pattern where
  name : String
  confidence : ℚ
  description : String
deriving DecidableEq, Repr

/-- One named layer grouping module paths. -/
structure LayerGroup where
  name : String
  modules : List String
deriving DecidableEq, Repr

/-- `ArchitectureAnalysis` from types.ts: the full analysis result. -/
structure ArchitectureAnalysis where
  modules : List Module
  relationships : List Relationship
  summary : String
  pattern : Pattern
  layers : List LayerGroup
  entryPoints : List String
  coreComponents : List String
deriving DecidableEq, Repr

/-! ## Confidence constants

The source's confidence decimals are written as already-reduced rationals so
that kernel reduction can evaluate comparisons on them (`OfScientific`
literals block on `Nat.gcd`); the bridge lemmas below identify each constant
with its decimal. -/

/-- The confidence decimal 0.85. -/
def conf085 : ℚ := ⟨17, 20, by norm_num, by norm_num⟩

/-- The confidence decimal 0.8. -/
def conf08 : ℚ := ⟨4, 5, by norm_num, by norm_num⟩

/-- The confidence decimal 0.75. -/
def conf075 : ℚ := ⟨3, 4, by norm_num, by norm_num⟩

/-- The confidence decimal 0.7. -/
def conf07 : ℚ := ⟨7, 10, by norm_num, by norm_num⟩

/-- The confidence decimal 0.6. -/
def conf06 : ℚ := ⟨3, 5, by norm_num, by norm_num⟩

/-- The confidence decimal 0.5. -/
def conf05 : ℚ := ⟨1, 2, by norm_num, by norm_num⟩

/-- The confidence decimal 0.3. -/
def conf03 : ℚ := ⟨3, 10, by norm_num, by norm_num⟩

/-! ## FileSelector (fileSelector.ts) — import extraction

The two regular expressions of `FileSelector.extractImports` are translated
into deterministic scanners.  All backtracking of the original patterns is
provably useless on these particular regexes (each sub-pattern's continuation
starts with a character class disjoint from the greedy run just consumed), so
greedy scanning reproduces the JavaScript matching exactly. -/

/-- Does the quote class `['"]` accept this character? -/
def isQuoteChar (c : Char) : Bool := c = '"' || c = quoteChar

/-- Match one literal character sequence, yielding the remainder. -/
def matchLit (lit : List Char) (cs : List Char) : Option (List Char) :=
  if lit.isPrefixOf cs then some (cs.drop lit.length) else none

/-- Mandatory whitespace `\s+`, greedily consumed. -/
def dropWs1 (cs : List Char) : Option (List Char) :=
  match cs with
  | c :: r => if isJsWs c then some (r.dropWhile isJsWs) else none
  | [] => none

/-- Match `['"]([^'"]+)['"]`, returning the capture and the remainder. -/
def takeQuoted (cs : List Char) : Option (List Char × List Char) :=
  match cs with
  | q :: r =>
    if isQuoteChar q then
      let cap := r.takeWhile (fun c => !isQuoteChar c)
      if cap.isEmpty then none
      else
        match r.drop cap.length with
        | q2 :: r2 => if isQuoteChar q2 then some (cap, r2) else none
        | [] => none
    else none
  | [] => none

/-- One import specifier: `\{[^}]*\}` or `\*\s+as\s+\w+` or `\w+`. -/
def esSpecParse (cs : List Char) : Option (List Char) :=
  match cs with
  | '{' :: r =>
    let body := r.takeWhile (fun c => c ≠ '}')
    (match r.drop body.length with
     | '}' :: r2 => some r2
     | _ => none)
  | '*' :: r => do
    let r1 ← dropWs1 r
    let r2 ← matchLit ['a', 's'] r1
    let r3 ← dropWs1 r2
    match r3.takeWhile isWordChar with
    | [] => none
    | w => some (r3.drop w.length)
  | c :: r => if isWordChar c then some ((c :: r).dropWhile isWordChar) else none
  | [] => none

/-- Iterated `(\s*,\s*Spec)*`, consuming as many full iterations as match. -/
def esIter : Nat → List Char → List Char
  | 0, cs => cs
  | fuel + 1, cs =>
    let attempt : Option (List Char) := do
      let r1 := cs.dropWhile isJsWs
      let r2 ← matchLit [','] r1
      let r3 := r2.dropWhile isJsWs
      esSpecParse r3
    match attempt with
    | some r => esIter fuel r
    | none => cs

/-- Continuation of the ES6 import regex after the literal `import`:
`\s+(?:Clause\s+from\s+)?['"]([^'"]+)['"]`. -/
def esAfterImport (cs : List Char) : Option (List Char × List Char) :=
  match dropWs1 cs with
  | none => none
  | some r =>
    let withClause : Option (List Char) := do
      let r1 ← esSpecParse r
      let r2 := esIter (r1.length + 1) r1
      let r3 ← dropWs1 r2
      let r4 ← matchLit ['f', 'r', 'o', 'm'] r3
      dropWs1 r4
    match withClause with
    | some r5 =>
      (match takeQuoted r5 with
       | some x => some x
       | none => takeQuoted r)
    | none => takeQuoted r

/-- Global scan for the ES6 import regex of `extractImports`. -/
def es6Scan : Nat → List Char → List (List Char) → List (List Char)
  | 0, _, acc => acc
  | _, [], acc => acc
  | fuel + 1, c :: tail, acc =>
    if ['i', 'm', 'p', 'o', 'r', 't'].isPrefixOf (c :: tail) then
      match esAfterImport ((c :: tail).drop 6) with
      | some (cap, rest) => es6Scan fuel rest (acc ++ [cap])
      | none => es6Scan fuel tail acc
    else es6Scan fuel tail acc

/-- Continuation of the require regex after the literal `require`:
`\s*\(\s*['"]([^'"]+)['"]\s*\)`. -/
def reqAfterRequire (cs : List Char) : Option (List Char × List Char) := do
  let r1 ← matchLit ['('] (cs.dropWhile isJsWs)
  let r2 := r1.dropWhile isJsWs
  let (cap, r3) ← takeQuoted r2
  let r4 ← matchLit [')'] (r3.dropWhile isJsWs)
  pure (cap, r4)

/-- Global scan for the CommonJS require regex of `extractImports`. -/
def reqScan : Nat → List Char → List (List Char) → List (List Char)
  | 0, _, acc => acc
  | _, [], acc => acc
  | fuel + 1, c :: tail, acc =>
    if ['r', 'e', 'q', 'u', 'i', 'r', 'e'].isPrefixOf (c :: tail) then
      match reqAfterRequire ((c :: tail).drop 7) with
      | some (cap, rest) => reqScan fuel rest (acc ++ [cap])
      | none => reqScan fuel tail acc
    else reqScan fuel tail acc

/-- `FileSelector.extractImports`: ES6 import literals then require literals,
in source-scan order.  The `filePath` parameter is unused in the source too. -/
def extractImports (content : String) (filePath : String) : List String :=
  let cs := content.toList
  let _ := filePath
  (es6Scan (cs.length + 1) cs []).map String.mk ++
    (reqScan (cs.length + 1) cs []).map String.mk

/-! ## FileSelector — path classification and import resolution -/

/-- Names accepted by the entry-point patterns. -/
def entryNames : List String := ["index", "main", "app", "server", "entry"]

/-- Anchored test `^(src\/)?(index|main|app|server|entry)\.(ts|tsx|js|jsx)$`
on an already lower-cased string (the source patterns carry the `i` flag). -/
def entryAnchoredLower (l : String) : Bool :=
  let core := if strStartsWith l "src/" then l.drop 4 else l
  entryNames.any (fun k => sourceExts.any (fun e => core == k ++ "." ++ e))

/-- `FileSelector.findEntryPoints` membership test for one file: each pattern
is tried against the file name and against the lower-cased full path. -/
def isEntryPointFile (f : FileContext) : Bool :=
  let fileName := lastSeg f.path
  let lpath := jsLower f.path
  entryAnchoredLower (jsLower fileName) || entryAnchoredLower lpath ||
    strEndsWith fileName "package.json" || strEndsWith lpath "package.json"

/-- `FileSelector.findEntryPoints` (insertion-ordered set of paths). -/
def findEntryPoints (files : List FileContext) : List String :=
  files.foldl (fun acc f => if isEntryPointFile f then addIfAbsent acc f.path else acc) []

/-- `FileSelector.findCoreFiles` membership test for one file. -/
def isCoreFile (f : FileContext) : Bool :=
  let l := jsLower f.path
  strContains l "/services/" || strContains l "/service/" ||
    strContains l "/core/" ||
    strContains l "/utils/" || strContains l "/util/" ||
    strContains l "/models/" || strContains l "/model/" ||
    strContains l "/lib/" ||
    sourceExts.any (fun e => strEndsWith l ("service." ++ e)) ||
    sourceExts.any (fun e => strEndsWith l ("util." ++ e))

/-- `FileSelector.findCoreFiles` (insertion-ordered set of paths). -/
def findCoreFiles (files : List FileContext) : List String :=
  files.foldl (fun acc f => if isCoreFile f then addIfAbsent acc f.path else acc) []

/-- `FileSelector.isConfigFile`. -/
def isConfigFile (path : String) : Bool :=
  let l := jsLower path
  sourceExts.any (fun e => strEndsWith l ("config." ++ e)) ||
    sourceExts.any (fun e => strEndsWith l (".config." ++ e)) ||
    strEndsWith l "package.json" ||
    strEndsWith l "tsconfig.json" ||
    sourceExts.any (fun e => strEndsWith l ("webpack.config." ++ e))

/-- `FileSelector.isServiceFile`. -/
def isServiceFile (path : String) : Bool :=
  let l := jsLower path
  sourceExts.any (fun e => strEndsWith l ("service." ++ e)) ||
    strContains l "/service/" || strContains l "/services/"

/-- `FileSelector.isTestFile`. -/
def isTestFile (path : String) : Bool :=
  let l := jsLower path
  sourceExts.any (fun e => strEndsWith l ("test." ++ e)) ||
    sourceExts.any (fun e => strEndsWith l ("spec." ++ e)) ||
    sourceExts.any (fun e => strEndsWith l (".test." ++ e)) ||
    sourceExts.any (fun e => strEndsWith l (".spec." ++ e)) ||
    strContains l "/test" || strContains l "/spec"

/-- `FileSelector.resolveRelativePath`: fold the dot segments of the import
literal against the importing directory. -/
def fsResolveRelativePath (importPath fromDir : String) : String :=
  (splitOnChar '/' importPath).foldl
    (fun currentDir part =>
      if part == "." then currentDir
      else if part == ".." then dropAfterLastSlash currentDir
      else if currentDir == "" then part
      else currentDir ++ "/" ++ part)
    fromDir

/-- `FileSelector.resolveImport`: resolve one import literal against the
corpus, returning `none` when no file matches. -/
def fsResolveImport (importPath fromFile : String) (files : List FileContext) : Option String :=
  let cleanImport := stripSrcExt importPath
  if strStartsWith cleanImport "." then
    let fromDir := dropAfterLastSlash fromFile
    let resolved := fsResolveRelativePath cleanImport fromDir
    (files.find? (fun file =>
      let noExt := stripSrcExt file.path
      noExt == resolved || strEndsWith noExt ("/" ++ resolved))).map (·.path)
  else
    let importName := (((splitOnChar '/' cleanImport)).getLast?).getD ""
    (files.find? (fun file => stripSrcExt (lastSeg file.path) == importName)).map (·.path)

/-! ## FileSelector — import graph and selection -/

/-- One node of the import graph (two insertion-ordered sets). -/
structure GraphNode where
  imports : List String
  importedBy : List String
deriving DecidableEq, Repr

/-- JavaScript `Map.set` on an association list (replace in place or append). -/
def mapSetG (g : List (String × GraphNode)) (k : String) (v : GraphNode) :
    List (String × GraphNode) :=
  if g.any (·.1 == k) then g.map (fun kv => if kv.1 == k then (k, v) else kv)
  else g ++ [(k, v)]

/-- JavaScript `Map.get` on an association list. -/
def mapGetG (g : List (String × GraphNode)) (k : String) : Option GraphNode :=
  (g.find? (·.1 == k)).map (·.2)

/-- `FileSelector.buildImportGraph`. -/
def buildImportGraph (files : List FileContext) : List (String × GraphNode) :=
  let g0 := files.foldl (fun g f => mapSetG g f.path ⟨[], []⟩) []
  files.foldl
    (fun g file =>
      let imps := extractImports file.content file.path
      match mapGetG g file.path with
      | none => g
      | some _ =>
        imps.foldl
          (fun g imp =>
            let g1 :=
              match mapGetG g file.path with
              | some node => mapSetG g file.path ⟨addIfAbsent node.imports imp, node.importedBy⟩
              | none => g
            match fsResolveImport imp file.path files with
            | some target =>
              if target ≠ file.path then
                match mapGetG g1 target with
                | some tnode =>
                  mapSetG g1 target ⟨tnode.imports, addIfAbsent tnode.importedBy file.path⟩
                | none => g1
              else g1
            | none => g1)
          g)
    g0

/-- Importance score of one file (the body of the scoring `forEach` in
`FileSelector.selectImportantFiles`). -/
def fileScore (entryPoints coreFiles : List String) (graph : List (String × GraphNode))
    (file : FileContext) : Int :=
  (if entryPoints.contains file.path then 100 else 0) +
    (if coreFiles.contains file.path then 80 else 0) +
    (((mapGetG graph file.path).map (fun n => (n.importedBy.length : Int))).getD 0) * 5 +
    (((mapGetG graph file.path).map (fun n => (n.imports.length : Int))).getD 0) * 3 +
    (if isConfigFile file.path then 50 else 0) +
    (if isServiceFile file.path then 30 else 0) +
    (if isTestFile file.path then -20 else 0) +
    (if strContains file.path "/src/" || strContains file.path "/lib/" then 10 else 0)

/-- Entry-point force-include step of `selectImportantFiles`: push the entry
point file unless some selected file already has its path. -/
def forceEntryStep (files : List FileContext) (sel : List FileContext) (path : String) :
    List FileContext :=
  if sel.any (fun f => f.path == path) then sel
  else
    match files.find? (fun f => f.path == path) with
    | some file => sel ++ [file]
    | none => sel

/-- Stable insertion of an element into a list sorted by descending score:
the element goes in front of the first strictly lower-scored entry, after any
equal scores, which is exactly the stable order of `Array.prototype.sort`
with the comparator `(a, b) => scoreB - scoreA`. -/
def insertDesc (score : FileContext → Int) (x : FileContext) :
    List FileContext → List FileContext
  | [] => [x]
  | y :: ys => if score x < score y then y :: insertDesc score x ys else x :: y :: ys

/-- Stable descending sort by score (insertion sort, the unique stable order
of the source comparator). -/
def sortByScoreDesc (score : FileContext → Int) : List FileContext → List FileContext
  | [] => []
  | x :: xs => insertDesc score x (sortByScoreDesc score xs)

/-- `FileSelector.selectImportantFiles`.  The score map keyed by path in the
source assigns every occurrence of a path the same score, so scoring is
modelled as a function of the file; `Array.prototype.sort` is a stable sort
under the comparator `scoreB - scoreA` and is modelled by the stable
descending insertion sort above. -/
def selectImportantFiles (files : List FileContext) (maxFiles : Nat) : List FileContext :=
  if files.length ≤ maxFiles then files
  else
    let entryPoints := findEntryPoints files
    let coreFiles := findCoreFiles files
    let importGraph := buildImportGraph files
    let scoreOf : FileContext → Int := fun f => fileScore entryPoints coreFiles importGraph f
    let sortedFiles := sortByScoreDesc scoreOf files
    let selected := sortedFiles.take maxFiles
    let selected2 := entryPoints.foldl (forceEntryStep files) selected
    selected2.take maxFiles

/-! ## OllamaClient (ollamaClient.ts) — path heuristics -/

/-- `OllamaClient.inferModuleType`.  The final `component` branch of the
source is kept although it is unreachable (the `view` branch already tests
`component`). -/
def inferModuleType (path : String) : String :=
  let lower := jsLower path
  if strContains lower "test" then "test"
  else if strContains lower "controller" then "controller"
  else if strContains lower "service" then "service"
  else if strContains lower "model" then "model"
  else if strContains lower "view" || strContains lower "component" then "view"
  else if strContains lower "util" then "utility"
  else if strContains lower "config" then "config"
  else if strContains lower "component" then "component"
  else "other"

/-- `OllamaClient.inferLayer`. -/
def inferLayer (path : String) : String :=
  let lower := jsLower path
  if strContains lower "view" || strContains lower "component" ||
      strContains lower "page" || strContains lower "ui" then "presentation"
  else if strContains lower "service" || strContains lower "business" ||
      strContains lower "logic" then "business"
  else if strContains lower "model" || strContains lower "data" ||
      strContains lower "db" || strContains lower "database" then "data"
  else if strContains lower "config" || strContains lower "infrastructure" ||
      strContains lower "infra" then "infrastructure"
  else "other"

/-- Largest prefix length `k` of the whitespace run `w` such that a character
follows position `k` and that character is not a newline (the backtracking of
`\s*` before the lazy `(.+?)` in `inferDescription`'s comment regex). -/
def descStartIndex (p : List Char) : Option Nat :=
  let w := (p.takeWhile isJsWs).length
  if p.drop w ≠ [] then some w
  else
    (((List.range w).reverse).find? (fun k =>
      match p.drop k with
      | c :: _ => c ≠ '\n'
      | [] => false))

/-- Scan for the first match of `/(?:\/\/|#|<!--)\s*(.+?)(?:\n|$)/`. -/
def descScan : Nat → List Char → Option (List Char)
  | 0, _ => none
  | _, [] => none
  | fuel + 1, c :: tail =>
    let cs := c :: tail
    let attempt : Option (List Char) :=
      let afterMarker : Option (List Char) :=
        match matchLit ['/', '/'] cs with
        | some r => some r
        | none =>
          match matchLit ['#'] cs with
          | some r => some r
          | none => matchLit ['<', '!', '-', '-'] cs
      match afterMarker with
      | none => none
      | some p =>
        match descStartIndex p with
        | some k => some ((p.drop k).takeWhile (fun ch => ch ≠ '\n'))
        | none => none
    match attempt with
    | some cap => some cap
    | none => descScan fuel tail

/-- `OllamaClient.inferDescription`: first comment-like line of the first ten
lines, trimmed and truncated to 100 characters. -/
def inferDescription (path content : String) : String :=
  let _ := path
  let lines := (splitOnChar '\n' content).take 10
  let joined := String.intercalate "\n" lines
  match descScan (joined.toList.length + 1) joined.toList with
  | some cap => (jsTrim (String.mk cap)).take 100
  | none => ""

/-- Controller signal of one module in `inferArchitecturalPattern`. -/
def controllerSignal (m : Module) : Bool :=
  m.type == "controller" || strContains (jsLower m.path) "controller" ||
    strContains (jsLower m.name) "controller"

/-- View signal of one module in `inferArchitecturalPattern`. -/
def viewSignal (m : Module) : Bool :=
  m.type == "view" || strContains (jsLower m.path) "view" ||
    strContains (jsLower m.name) "view" || strContains (jsLower m.path) "component"

/-- Model signal of one module in `inferArchitecturalPattern`. -/
def modelSignal (m : Module) : Bool :=
  m.type == "model" || strContains (jsLower m.path) "model" ||
    strContains (jsLower m.name) "model"

/-- Service signal of one module in `inferArchitecturalPattern`. -/
def serviceSignal (m : Module) : Bool :=
  m.type == "service" || strContains (jsLower m.path) "service" ||
    strContains (jsLower m.name) "service"

/-- Component signal of one module in `inferArchitecturalPattern`. -/
def componentSignal (m : Module) : Bool :=
  m.type == "component" || strContains (jsLower m.path) "component"

/-- Route signal of one module in `inferArchitecturalPattern`. -/
def routeSignal (m : Module) : Bool :=
  strContains (jsLower m.path) "route" || strContains (jsLower m.path) "api/"

/-- Explicit-layer signal of one module (`m.layer && m.layer !== 'other'`). -/
def layerSignal (m : Module) : Bool := m.layer ≠ "" && m.layer ≠ "other"

/-- Flask signal of one module in `inferArchitecturalPattern`. -/
def flaskSignal (m : Module) : Bool :=
  strContains (jsLower m.path) "flask" || strContains (jsLower m.path) "app.py" ||
    strContains (jsLower m.path) "main.py"

/-- React signal of one module in `inferArchitecturalPattern`. -/
def reactSignal (m : Module) : Bool :=
  strContains (jsLower m.path) "react" || strContains (jsLower m.path) ".jsx" ||
    strContains (jsLower m.path) ".tsx"

/-- Next.js signal of one module in `inferArchitecturalPattern`. -/
def nextSignal (m : Module) : Bool :=
  strContains (jsLower m.path) "next" || strContains (jsLower m.path) "pages" ||
    strContains (jsLower m.path) "app/"

/-- `OllamaClient.inferArchitecturalPattern`.  The source accumulates ten
boolean flags in a `forEach` loop by disjunction, which is `List.any` of the
per-module signals above, and the float comparison
`relationships.length > modules.length * 0.5` is the exact integer comparison
`2 * relationships > modules`. -/
def inferArchitecturalPattern (modules : List Module) (relationships : List Relationship) :
    Pattern :=
  let hasControllers := modules.any controllerSignal
  let hasViews := modules.any viewSignal
  let hasModels := modules.any modelSignal
  let hasServices := modules.any serviceSignal
  let hasComponents := modules.any componentSignal
  let hasRoutes := modules.any routeSignal
  let hasLayers := modules.any layerSignal
  let hasFlask := modules.any flaskSignal
  let hasReact := modules.any reactSignal
  let hasNext := modules.any nextSignal
  if hasControllers && hasViews && hasModels then
    ⟨"MVC", conf085, "Detected Model-View-Controller pattern with clear separation of concerns"⟩
  else if hasLayers || (hasServices && hasModels && hasViews) then
    ⟨"Layered", conf075, "Detected layered architecture with separation of concerns across multiple layers"⟩
  else if hasNext || (hasReact && hasComponents) then
    ⟨"Layered", conf07, "Detected component-based architecture typical of React/Next.js applications"⟩
  else if hasFlask && hasRoutes then
    ⟨"Layered", conf07, "Detected Flask-based web application with layered structure"⟩
  else if hasServices && decide (modules.length > 5) &&
      decide (2 * relationships.length > modules.length) then
    ⟨"Microservices", conf06, "Detected potential microservices architecture with multiple service modules"⟩
  else if decide (modules.length > 3) && (hasServices || hasModels || hasViews) then
    ⟨"Layered", conf06, "Detected layered architecture based on module types and structure"⟩
  else
    ⟨"Unknown", conf03, "Could not confidently determine architectural pattern from available information"⟩

/-- Capitalisation used by `groupByLayers`:
`name.charAt(0).toUpperCase() + name.slice(1)`. -/
def capitalize (s : String) : String :=
  match s.toList with
  | [] => s
  | c :: r => String.mk (Char.toUpper c :: r)

/-- `OllamaClient.groupByLayers`: insertion-ordered map from layer to the
module paths carrying it. -/
def groupByLayers (modules : List Module) : List LayerGroup :=
  let layerMap := modules.foldl
    (fun (mp : List (String × List String)) m =>
      let layer := if m.layer == "" then "other" else m.layer
      if mp.any (·.1 == layer) then
        mp.map (fun kv => if kv.1 == layer then (kv.1, kv.2 ++ [m.path]) else kv)
      else mp ++ [(layer, [m.path])])
    []
  layerMap.map (fun kv => ⟨capitalize kv.1, kv.2⟩)

/-! ## OllamaClient — relationship backfill via the import resolver -/

/-- `OllamaClient.resolveRelativePath` (distinct from the FileSelector one:
it handles a single leading `./` or `../` segment only). -/
def clientResolveRelativePath (relativePath baseDir : String) : String :=
  if strStartsWith relativePath "./" then baseDir ++ "/" ++ relativePath.drop 2
  else if strStartsWith relativePath "../" then
    let parts := (splitOnChar '/' baseDir).dropLast
    String.intercalate "/" parts ++ "/" ++ relativePath.drop 3
  else relativePath

/-- Model of `s.replace(/\.(js|ts|tsx|jsx|py)$/, '')` used by
`OllamaClient.resolveImportPath`. -/
def stripClientExt (s : String) : String :=
  if strEndsWith s ".tsx" then s.dropRight 4
  else if strEndsWith s ".jsx" then s.dropRight 4
  else if strEndsWith s ".js" then s.dropRight 3
  else if strEndsWith s ".ts" then s.dropRight 3
  else if strEndsWith s ".py" then s.dropRight 3
  else s

/-- `OllamaClient.resolveImportPath`.  A matched file whose path is the empty
string is mapped to `none` by the final `matchingFile?.path || null`. -/
def resolveImportPath (importPath fromPath : String) (files : List FileContext) :
    Option String :=
  let baseDir := String.intercalate "/" ((splitOnChar '/' fromPath).dropLast)
  let relativePath :=
    if strStartsWith importPath "./" || strStartsWith importPath "../" then
      clientResolveRelativePath importPath baseDir
    else importPath
  match files.find? (fun f =>
      f.path == relativePath || strEndsWith f.path relativePath ||
        strContains f.path (stripClientExt relativePath)) with
  | some f => if f.path == "" then none else some f.path
  | none => none

/-- Continuation of the import-statement regex of `inferAllRelationships`
after one of the keywords: `\s+['"]([^'"]+)['"]`. -/
def impAfterKeyword (cs : List Char) : Option (List Char × List Char) := do
  let r ← dropWs1 cs
  takeQuoted r

/-- Global scan for `/(?:import|from|require)\s+['"]([^'"]+)['"]/g` over file
content, returning the captured import literals (the source re-extracts the
same quoted span from each full match with a second regex). -/
def impScan : Nat → List Char → List String → List String
  | 0, _, acc => acc
  | _, [], acc => acc
  | fuel + 1, c :: tail, acc =>
    let cs := c :: tail
    let attempt : Option (List Char × List Char) :=
      match matchLit ['i', 'm', 'p', 'o', 'r', 't'] cs with
      | some r =>
        (match impAfterKeyword r with
         | some x => some x
         | none =>
           match matchLit ['f', 'r', 'o', 'm'] cs with
           | some r2 =>
             (match impAfterKeyword r2 with
              | some x => some x
              | none =>
                match matchLit ['r', 'e', 'q', 'u', 'i', 'r', 'e'] cs with
                | some r3 => impAfterKeyword r3
                | none => none)
           | none =>
             match matchLit ['r', 'e', 'q', 'u', 'i', 'r', 'e'] cs with
             | some r3 => impAfterKeyword r3
             | none => none)
      | none =>
        match matchLit ['f', 'r', 'o', 'm'] cs with
        | some r2 =>
          (match impAfterKeyword r2 with
           | some x => some x
           | none =>
             match matchLit ['r', 'e', 'q', 'u', 'i', 'r', 'e'] cs with
             | some r3 => impAfterKeyword r3
             | none => none)
        | none =>
          match matchLit ['r', 'e', 'q', 'u', 'i', 'r', 'e'] cs with
          | some r3 => impAfterKeyword r3
          | none => none
    match attempt with
    | some (cap, rest) => impScan fuel rest (acc ++ [String.mk cap])
    | none => impScan fuel tail acc

/-- Import literals found in the first part of a file's content by
`inferAllRelationships` (which inspects `content.substring(0, 10000)`). -/
def scanImports (content : String) : List String :=
  let cs := (content.toList).take 10000
  impScan (cs.length + 1) cs []

/-- Deduplication key of a relationship: the template string
`${rel.from}->${rel.to}`. -/
def relKey (r : Relationship) : String := r.rfrom ++ "->" ++ r.rto

/-- One step of guarded relationship insertion: the state carries the key set
and the output list exactly as `relationshipSet`/`relationships` do in the
source. -/
def addRel (st : List String × List Relationship) (r : Relationship) :
    List String × List Relationship :=
  if st.1.contains (relKey r) then st else (st.1 ++ [relKey r], st.2 ++ [r])

/-- Per-import step of `inferAllRelationships`: resolve one import literal of
the file at `filePath` and insert the edge when it lands on a known module and
its key is new. -/
def importEdgeStep (modulePaths : List String) (allFiles : List FileContext) (filePath : String)
    (st : List String × List Relationship) (importPath : String) :
    List String × List Relationship :=
  match resolveImportPath importPath filePath allFiles with
  | some resolvedPath =>
    if modulePaths.contains resolvedPath && resolvedPath ≠ filePath then
      addRel st ⟨filePath, resolvedPath, "imports", "medium",
        "Imports from " ++ resolvedPath⟩
    else st
  | none => st

/-- `OllamaClient.inferAllRelationships`: seed with the merged relationships,
then add one `imports` edge per resolvable import literal whose key is new. -/
def inferAllRelationships (allModules : List Module) (allFiles : List FileContext)
    (existingRelationships : List Relationship) : List Relationship :=
  let modulePaths := allModules.map (·.path)
  let st0 : List String × List Relationship :=
    (existingRelationships.map relKey, existingRelationships)
  (allFiles.foldl
    (fun st file => (scanImports file.content).foldl (importEdgeStep modulePaths allFiles file.path) st)
    st0).2

/-! ## OllamaClient — merge engine -/

/-- `OllamaClient.createFallbackAnalysis` (decoder tier 4). -/
def createFallbackAnalysis (chunkFiles : List FileContext) : ArchitectureAnalysis :=
  { modules := chunkFiles.map (fun f =>
      { name := let n := stripLastExt (lastSeg f.path); if n == "" then f.path else n
        path := f.path
        type := inferModuleType f.path
        layer := inferLayer f.path
        description := inferDescription f.path f.content })
    relationships := []
    summary := "Fallback analysis for " ++ toString chunkFiles.length ++ " files"
    pattern := ⟨"Unknown", 0, "Chunk analysis failed"⟩
    layers := []
    entryPoints := []
    coreComponents := [] }

/-- `OllamaClient.mergeWithAllFiles`: keep the analysed modules, then append a
heuristic module for every corpus file whose path was not analysed.  The
`selectedFiles` parameter is unused in the source as well. -/
def mergeWithAllFiles (analyzedModules : List Module) (allFiles : List FileContext)
    (selectedFiles : List FileContext) : List Module :=
  let _ := selectedFiles
  let analyzedPaths := analyzedModules.map (·.path)
  analyzedModules ++
    (allFiles.filter (fun f => !analyzedPaths.contains f.path)).map (fun f =>
      { name := let n := stripLastExt (lastSeg f.path); if n == "" then f.path else n
        path := f.path
        type := inferModuleType f.path
        layer := inferLayer f.path
        description := inferDescription f.path f.content })

/-- First-occurrence-wins module map of `mergeChunkResults` (a JavaScript
`Map` keyed by path, read back in insertion order). -/
def mergeModuleMap (chunkResults : List ArchitectureAnalysis) : List Module :=
  chunkResults.foldl
    (fun acc c =>
      c.modules.foldl
        (fun acc m => if acc.any (fun x => x.path == m.path) then acc else acc ++ [m])
        acc)
    []

/-- First-write-wins relationship deduplication of `mergeChunkResults`. -/
def mergeRelationships (chunkResults : List ArchitectureAnalysis) : List Relationship :=
  (chunkResults.foldl (fun st c => c.relationships.foldl addRel st) ([], [])).2

/-- Reduction step of the pattern selection in `mergeChunkResults`:
`(current?.confidence || 0) > (best?.confidence || 0) ? current : best`. -/
def pickBest (best current : Pattern) : Pattern :=
  if best.confidence < current.confidence then current else best

/-- Pattern selection of `mergeChunkResults`: drop `Unknown`-named fragment
patterns, then `reduce` keeping the strictly higher confidence. -/
def mergeBestPattern (chunkResults : List ArchitectureAnalysis) : Pattern :=
  let patterns := (chunkResults.map (·.pattern)).filter (fun p => p.name ≠ "Unknown")
  match patterns with
  | [] => ⟨"Unknown", 0, "Could not determine pattern"⟩
  | h :: t => t.foldl pickBest h

/-- `OllamaClient.mergeChunkResults`. -/
def mergeChunkResults (chunkResults : List ArchitectureAnalysis)
    (allFiles selectedFiles : List FileContext) : ArchitectureAnalysis :=
  let moduleList := mergeModuleMap chunkResults
  let relationships := mergeRelationships chunkResults
  -- the source also merges the fragments' layer groups into a `layerMap`,
  -- but that merged value is dead: the returned record uses `groupByLayers`
  let summaries := (chunkResults.map (·.summary)).filter (fun s => s ≠ "")
  let combinedSummary :=
    if summaries.length > 0 then String.intercalate " " summaries
    else "Analyzed " ++ toString allFiles.length ++ " files across " ++
      toString chunkResults.length ++ " chunks"
  let bestPattern := mergeBestPattern chunkResults
  let entryPointsSet := chunkResults.foldl (fun s c => c.entryPoints.foldl addIfAbsent s) []
  let coreComponentsSet := chunkResults.foldl (fun s c => c.coreComponents.foldl addIfAbsent s) []
  let allModules := mergeWithAllFiles moduleList allFiles selectedFiles
  let allRelationships := inferAllRelationships allModules allFiles relationships
  { modules := allModules
    relationships := allRelationships
    summary := combinedSummary
    pattern := bestPattern
    layers := groupByLayers allModules
    entryPoints := entryPointsSet
    coreComponents := coreComponentsSet }

/-! ## OllamaClient — analysis entry point (selection and chunking) -/

/-- File budget of `analyze`:
`Math.min(10, Math.max(5, Math.floor(files.length * 0.10)))`.  For every
corpus size the float expression `Math.floor(n * 0.10)` equals `n / 10` in
integer arithmetic (the rounding error of `0.10` never crosses an integer
boundary below 2^52), so the budget is embedded with natural division. -/
def maxFilesFor (n : Nat) : Nat := min 10 (max 5 (n / 10))

/-- Down-selection step of `analyze`. -/
def selectedForAnalysis (files : List FileContext) : List FileContext :=
  if files.length > maxFilesFor files.length then
    selectImportantFiles files (maxFilesFor files.length)
  else files

/-- Fixed-size chunking of `analyze` (`chunkSize = 5`). -/
def chunksOf : Nat → List FileContext → List (List FileContext)
  | 0, _ => []
  | _, [] => []
  | fuel + 1, l => l.take 5 :: chunksOf fuel (l.drop 5)

/-- The chunks dispatched by `analyze`. -/
def analysisChunks (files : List FileContext) : List (List FileContext) :=
  let selected := selectedForAnalysis files
  chunksOf selected.length selected

/-- The whole pipeline in the total-corpus-failure mode: every chunk request
fails, so every chunk result is `createFallbackAnalysis` of its files, and the
merge engine runs on those fragments. -/
def analyzeAllFallback (files : List FileContext) : ArchitectureAnalysis :=
  mergeChunkResults ((analysisChunks files).map createFallbackAnalysis) files
    (selectedForAnalysis files)

end CodeAtlas

namespace CodeAtlas

/-! ## Dynamic JSON values

The decoder works on untrusted parsed values.  `Json` models the JavaScript
value universe reachable from `JSON.parse`; `undefined` is modelled as
`Option.none` at access sites.  Where the source reads a field of a possibly
non-object value, `getFieldE` mirrors JavaScript exactly: reading from `null`
throws, reading a missing field of any other value yields `undefined`. -/

inductive Json where
  | jnull : Json
  | jbool : Bool → Json
  | jnum : ℚ → Json
  | jstr : String → Json
  | jarr : List Json → Json
  | jobj : List (String × Json) → Json

/-- JavaScript truthiness of a value. -/
def truthyJ : Json → Bool
  | .jnull => false
  | .jbool b => b
  | .jnum q => decide (q ≠ 0)
  | .jstr s => s ≠ ""
  | .jarr _ => true
  | .jobj _ => true

/-- JavaScript truthiness with `undefined` (`none`) falsy. -/
def truthyO : Option Json → Bool
  | none => false
  | some j => truthyJ j

/-- Property read `v[k]`: throws on `null`, yields the last duplicate key of
an object (as `JSON.parse` keeps the last), `undefined` on other values. -/
def getFieldE : Json → String → Except String (Option Json)
  | .jnull, _ => .error "TypeError: cannot read properties of null"
  | .jobj fs, k => .ok ((fs.reverse.find? (fun kv => kv.1 == k)).map (·.2))
  | _, _ => .ok none

/-- The JavaScript `||` chain over possibly-undefined values with a default. -/
def jsOr (v : Option Json) (d : Json) : Json :=
  match v with
  | some x => if truthyJ x then x else d
  | none => d

/-- Require a string where JavaScript would call a string method (`split`,
`toLowerCase`, ...); other values raise a `TypeError` there. -/
def asStrE : Json → Except String String
  | .jstr s => .ok s
  | _ => .error "TypeError: not a function"

/-- Decimal rendering of a rational for string-coercion corners (JavaScript
renders numbers in decimal; the exact digits of this rendering are never
load-bearing for the theorems below). -/
def ratToString (q : ℚ) : String :=
  if q.den = 1 then toString q.num else toString q.num ++ "/" ++ toString q.den

/-- JavaScript string coercion of a stored value (template literals, `Map`
keys built by string concatenation).  Arrays join their coerced elements with
commas; this models `String([x]) = String(x)` faithfully for the list shapes
reaching the merge. -/
def jsonToStr : Json → String
  | .jnull => "null"
  | .jbool true => "true"
  | .jbool false => "false"
  | .jnum q => ratToString q
  | .jstr s => s
  | .jarr l => String.intercalate "," (l.attach.map (fun x => jsonToStr x.1))
  | .jobj _ => "[object Object]"
decreasing_by
  have := List.sizeOf_lt_of_mem x.2
  simp only [Json.jarr.sizeOf_spec]
  omega

/-- Coerce an optional field to the string stored by the source (used where
the source stores a value without calling string methods on it). -/
def jsonFieldStr (v : Option Json) (d : String) : String :=
  match v with
  | some x => if truthyJ x then jsonToStr x else d
  | none => d

/-! ## Model of `JSON.parse` -/

/-- Whitespace accepted between JSON tokens. -/
def jsonWs (c : Char) : Bool := c = ' ' || c = '\t' || c = '\n' || c = '\r'

/-- One hexadecimal digit. -/
def hexDigit (c : Char) : Option Nat :=
  if '0' ≤ c && c ≤ '9' then some (c.toNat - 48)
  else if 'a' ≤ c && c ≤ 'f' then some (c.toNat - 87)
  else if 'A' ≤ c && c ≤ 'F' then some (c.toNat - 55)
  else none

/-- Decimal digits to a natural number. -/
def digitsToNat (ds : List Char) : Nat :=
  ds.foldl (fun n c => n * 10 + (c.toNat - 48)) 0

/-- JSON string body after the opening quote (escapes per ECMA-404; a
`\u` escape naming a surrogate code unit is modelled by the replacement
character, as Lean characters are scalar values). -/
def parseJsonStringAux : Nat → List Char → List Char → Except String (String × List Char)
  | 0, _, _ => .error "string: fuel exhausted"
  | fuel + 1, acc, cs =>
    match cs with
    | [] => .error "unterminated string"
    | c :: r =>
      if c = '"' then .ok (String.mk acc.reverse, r)
      else if c = '\\' then
        match r with
        | [] => .error "truncated escape"
        | e :: r2 =>
          if e = '"' then parseJsonStringAux fuel ('"' :: acc) r2
          else if e = '\\' then parseJsonStringAux fuel ('\\' :: acc) r2
          else if e = '/' then parseJsonStringAux fuel ('/' :: acc) r2
          else if e = 'b' then parseJsonStringAux fuel (Char.ofNat 8 :: acc) r2
          else if e = 'f' then parseJsonStringAux fuel (Char.ofNat 12 :: acc) r2
          else if e = 'n' then parseJsonStringAux fuel ('\n' :: acc) r2
          else if e = 'r' then parseJsonStringAux fuel ('\r' :: acc) r2
          else if e = 't' then parseJsonStringAux fuel ('\t' :: acc) r2
          else if e = 'u' then
            match r2 with
            | h1 :: h2 :: h3 :: h4 :: r3 =>
              match hexDigit h1, hexDigit h2, hexDigit h3, hexDigit h4 with
              | some d1, some d2, some d3, some d4 =>
                parseJsonStringAux fuel
                  (Char.ofNat (((d1 * 16 + d2) * 16 + d3) * 16 + d4) :: acc) r3
              | _, _, _, _ => .error "bad unicode escape"
            | _ => .error "truncated unicode escape"
          else .error "bad escape"
      else if c.toNat < 32 then .error "control character in string"
      else parseJsonStringAux fuel (c :: acc) r

/-- JSON number grammar `-?(0|[1-9][0-9]*)(\.[0-9]+)?([eE][+-]?[0-9]+)?`,
evaluated exactly as a rational. -/
def parseJsonNumber (cs : List Char) : Except String (ℚ × List Char) :=
  let (sign, cs1) :=
    match cs with
    | '-' :: r => ((-1 : ℚ), r)
    | _ => ((1 : ℚ), cs)
  let intDigits := cs1.takeWhile Char.isDigit
  if intDigits.isEmpty then .error "number: no digits"
  else if 1 < intDigits.length && intDigits.head? = some '0' then .error "number: leading zero"
  else
    let cs2 := cs1.drop intDigits.length
    let (fracDigits, cs3) :=
      match cs2 with
      | '.' :: r =>
        let fs := r.takeWhile Char.isDigit
        (fs, r.drop fs.length)
      | _ => ([], cs2)
    if cs2.head? = some '.' && fracDigits.isEmpty then .error "number: bad fraction"
    else
      let parseExp : Except String (Int × List Char) :=
        match cs3 with
        | 'e' :: r | 'E' :: r =>
          let (esign, r1) :=
            match r with
            | '+' :: r2 => ((1 : Int), r2)
            | '-' :: r2 => ((-1 : Int), r2)
            | _ => ((1 : Int), r)
          let eds := r1.takeWhile Char.isDigit
          if eds.isEmpty then .error "number: bad exponent"
          else .ok (esign * (digitsToNat eds : Int), r1.drop eds.length)
        | _ => .ok (0, cs3)
      match parseExp with
      | .error e => .error e
      | .ok (ex, cs4) =>
        let mantissa : ℚ := (digitsToNat (intDigits ++ fracDigits) : ℚ) / ((10 : ℚ) ^ fracDigits.length)
        let value : ℚ := sign * mantissa * ((10 : ℚ) ^ ex)
        .ok (value, cs4)

mutual

/-- One JSON value, leading whitespace already consumed. -/
def parseJsonValue : Nat → List Char → Except String (Json × List Char)
  | 0, _ => .error "value: fuel exhausted"
  | fuel + 1, cs =>
    match cs with
    | [] => .error "unexpected end of input"
    | c :: r =>
      if c = '{' then
        match r.dropWhile jsonWs with
        | '}' :: r2 => .ok (.jobj [], r2)
        | r1 => parseJsonMembers fuel [] r1
      else if c = '[' then
        match r.dropWhile jsonWs with
        | ']' :: r2 => .ok (.jarr [], r2)
        | r1 => parseJsonElements fuel [] r1
      else if c = '"' then
        match parseJsonStringAux (r.length + 1) [] r with
        | .error e => .error e
        | .ok (s, r2) => .ok (.jstr s, r2)
      else if c = 't' then
        match matchLit ['r', 'u', 'e'] r with
        | some r2 => .ok (.jbool true, r2)
        | none => .error "bad literal"
      else if c = 'f' then
        match matchLit ['a', 'l', 's', 'e'] r with
        | some r2 => .ok (.jbool false, r2)
        | none => .error "bad literal"
      else if c = 'n' then
        match matchLit ['u', 'l', 'l'] r with
        | some r2 => .ok (.jnull, r2)
        | none => .error "bad literal"
      else if c = '-' || c.isDigit then
        match parseJsonNumber (c :: r) with
        | .error e => .error e
        | .ok (q, r2) => .ok (.jnum q, r2)
      else .error "unexpected character"

/-- Members of an object after `{`, at the start of a key. -/
def parseJsonMembers : Nat → List (String × Json) → List Char →
    Except String (Json × List Char)
  | 0, _, _ => .error "object: fuel exhausted"
  | fuel + 1, acc, cs =>
    match cs with
    | '"' :: r =>
      match parseJsonStringAux (r.length + 1) [] r with
      | .error e => .error e
      | .ok (k, r1) =>
        match r1.dropWhile jsonWs with
        | ':' :: r2 =>
          match parseJsonValue fuel (r2.dropWhile jsonWs) with
          | .error e => .error e
          | .ok (v, r3) =>
            match r3.dropWhile jsonWs with
            | ',' :: r4 => parseJsonMembers fuel (acc ++ [(k, v)]) (r4.dropWhile jsonWs)
            | '}' :: r4 => .ok (.jobj (acc ++ [(k, v)]), r4)
            | _ => .error "expected comma or close brace in object"
        | _ => .error "expected colon in object"
    | _ => .error "expected string key in object"

/-- Elements of an array after `[`, at the start of a value. -/
def parseJsonElements : Nat → List Json → List Char → Except String (Json × List Char)
  | 0, _, _ => .error "array: fuel exhausted"
  | fuel + 1, acc, cs =>
    match parseJsonValue fuel cs with
    | .error e => .error e
    | .ok (v, r1) =>
      match r1.dropWhile jsonWs with
      | ',' :: r2 => parseJsonElements fuel (acc ++ [v]) (r2.dropWhile jsonWs)
      | ']' :: r2 => .ok (.jarr (acc ++ [v]), r2)
      | _ => .error "expected comma or close bracket in array"

end

/-- Model of `JSON.parse`: a single value with surrounding whitespace. -/
def jsonParse (s : String) : Except String Json :=
  let cs := s.toList
  match parseJsonValue (cs.length + 1) (cs.dropWhile jsonWs) with
  | .error e => .error e
  | .ok (v, rest) =>
    if (rest.dropWhile jsonWs).isEmpty then .ok v else .error "unexpected trailing characters"

/-! ## Response cleanup and repair (parseOllamaResponse, lines 516-606) -/

/-- Case-insensitive literal prefix test (the fence regexes carry `i`). -/
def prefixCI (pat : List Char) (cs : List Char) : Bool :=
  pat.isPrefixOf ((cs.take pat.length).map Char.toLower)

/-- One pass of `replace(/^PAT\s*/gim, '')`: at each line start remove the
literal and the following whitespace run; scanning resumes after the match on
the original string. -/
def stripLinePre (pat : List Char) : Nat → Bool → List Char → List Char
  | 0, _, cs => cs
  | _, _, [] => []
  | fuel + 1, atLineStart, c :: tail =>
    let cs := c :: tail
    if atLineStart && prefixCI pat cs then
      let afterPat := cs.drop pat.length
      let ws := afterPat.takeWhile isJsWs
      stripLinePre pat fuel (ws.getLast? = some '\n') (afterPat.drop ws.length)
    else c :: stripLinePre pat fuel (c = '\n') tail

/-- One pass of `replace(/PAT$/gim, '')`: remove the literal when it sits at
the end of a line (before a newline or the end of the text). -/
def stripLineSuf (pat : List Char) : Nat → List Char → List Char
  | 0, cs => cs
  | _, [] => []
  | fuel + 1, c :: tail =>
    let cs := c :: tail
    if prefixCI pat cs &&
        (cs.drop pat.length = [] || (cs.drop pat.length).head? = some '\n') then
      stripLineSuf pat fuel (cs.drop pat.length)
    else c :: stripLineSuf pat fuel tail

/-- Markdown code-fence cleanup of `parseOllamaResponse` (four passes). -/
def stripFences (cs : List Char) : List Char :=
  let p1 := stripLinePre "```json".toList (cs.length + 1) true cs
  let p2 := stripLinePre "```".toList (p1.length + 1) true p1
  let p3 := stripLineSuf "```".toList (p2.length + 1) p2
  stripLineSuf "```json".toList (p3.length + 1) p3

/-- Index of the first occurrence of a character. -/
def idxOfChar (c : Char) (cs : List Char) : Option Nat := cs.findIdx? (fun x => x = c)

/-- Index of the last occurrence of a character. -/
def lastIdxOfChar (c : Char) (cs : List Char) : Option Nat :=
  match idxOfChar c cs.reverse with
  | some i => some (cs.length - 1 - i)
  | none => none

/-- Strip text before the first brace and after the last, per source lines
527-535 (each direction only when the corresponding index test holds). -/
def trimToBraces (cs : List Char) : List Char :=
  let cs1 :=
    match idxOfChar '{' cs with
    | some i => if 0 < i then cs.drop i else cs
    | none => cs
  match lastIdxOfChar '}' cs1 with
  | some j => if j + 1 < cs1.length then cs1.take (j + 1) else cs1
  | none => cs1

/-- The brace/quote balance scanner of extraction method 1 (source lines
542-585), returning the position of the balancing close brace.  `pos` is the
absolute index of the head of `cs`; the scan starts at the first `{`. -/
def braceScan : List Char → Nat → Bool → Bool → Nat → Option Nat
  | [], _, _, _, _ => none
  | c :: r, pos, inString, escapeNext, braceCount =>
    if escapeNext then braceScan r (pos + 1) inString false braceCount
    else if c = '\\' then braceScan r (pos + 1) inString true braceCount
    else if c = '"' then braceScan r (pos + 1) (!inString) false braceCount
    else if !inString && c = '{' then braceScan r (pos + 1) inString false (braceCount + 1)
    else if !inString && c = '}' then
      if braceCount = 1 then some pos
      else braceScan r (pos + 1) inString false (braceCount - 1)
    else braceScan r (pos + 1) inString false braceCount

/-- Extraction methods 1 and 2 of `parseOllamaResponse` over the cleaned
text, yielding the candidate JSON span. -/
def extractJsonSpan (cleanJson : List Char) : List Char :=
  let jsonString :=
    match idxOfChar '{' cleanJson with
    | some fb =>
      match braceScan (cleanJson.drop fb) fb false false 0 with
      | some lastBrace =>
        if fb < lastBrace then (cleanJson.drop fb).take (lastBrace + 1 - fb) else cleanJson
      | none => cleanJson
    | none => cleanJson
  if !(strStartsWith (jsTrim (String.mk jsonString)) "\x7b") ||
      (jsTrim (String.mk jsonString)).length < 10 then
    match idxOfChar '{' cleanJson, lastIdxOfChar '}' cleanJson with
    | some fb, some lb =>
      if fb < lb then (cleanJson.drop fb).take (lb + 1 - fb) else jsonString
    | _, _ => jsonString
  else jsonString

/-- Repair 1: `replace(/,(\s*[}\]])/g, '$1')` — drop commas before a closing
bracket or brace. -/
def fixTrailingCommas : Nat → List Char → List Char
  | 0, cs => cs
  | _, [] => []
  | fuel + 1, c :: r =>
    if c = ',' then
      let ws := r.takeWhile isJsWs
      match r.drop ws.length with
      | b :: rest =>
        if b = '}' || b = ']' then ws ++ b :: fixTrailingCommas fuel rest
        else c :: fixTrailingCommas fuel r
      | [] => c :: fixTrailingCommas fuel r
    else c :: fixTrailingCommas fuel r

/-- Start of a JavaScript identifier (`[a-zA-Z_]`). -/
def isIdentStart (c : Char) : Bool :=
  ('a' ≤ c && c ≤ 'z') || ('A' ≤ c && c ≤ 'Z') || c = '_'

/-- Repair 2: `replace(/([{,]\s*)([a-zA-Z_][a-zA-Z0-9_]*)\s*:/g, '$1"$2":')`
— quote unquoted object keys. -/
def quoteKeys : Nat → List Char → List Char
  | 0, cs => cs
  | _, [] => []
  | fuel + 1, c :: r =>
    if c = '{' || c = ',' then
      let ws := r.takeWhile isJsWs
      let rest1 := r.drop ws.length
      match rest1 with
      | i0 :: _ =>
        if isIdentStart i0 then
          let ident := rest1.takeWhile isWordChar
          let rest2 := rest1.drop ident.length
          let ws2 := rest2.takeWhile isJsWs
          match rest2.drop ws2.length with
          | ':' :: rest3 => c :: ws ++ '"' :: ident ++ '"' :: ':' :: quoteKeys fuel rest3
          | _ => c :: quoteKeys fuel r
        else c :: quoteKeys fuel r
      | [] => c :: quoteKeys fuel r
    else c :: quoteKeys fuel r

/-- Repair 3: `replace(/\/\/.*$/gm, '')` — drop line comments. -/
def stripLineComments : Nat → List Char → List Char
  | 0, cs => cs
  | _, [] => []
  | fuel + 1, c :: r =>
    match c, r with
    | '/', '/' :: rest => stripLineComments fuel (rest.dropWhile (fun x => x ≠ '\n'))
    | _, _ => c :: stripLineComments fuel r

/-- Find the end of the nearest `*/`, if any. -/
def findBlockClose : Nat → List Char → Option (List Char)
  | 0, _ => none
  | _, [] => none
  | fuel + 1, c :: r =>
    match c, r with
    | '*', '/' :: rest => some rest
    | _, _ => findBlockClose fuel r

/-- Repair 4: `replace(/\/\*[\s\S]*?\*\//g, '')` — drop block comments
(lazy, so up to the nearest close; an unclosed opener is left in place). -/
def stripBlockComments : Nat → List Char → List Char
  | 0, cs => cs
  | _, [] => []
  | fuel + 1, c :: r =>
    match c, r with
    | '/', '*' :: rest =>
      (match findBlockClose (rest.length + 1) rest with
       | some after => stripBlockComments fuel after
       | none => c :: stripBlockComments fuel r)
    | _, _ => c :: stripBlockComments fuel r

/-- The full cleanup pipeline of `parseOllamaResponse` up to the first parse
attempt: fence removal, trimming, brace trimming, balanced extraction, and
the four textual repairs.  Its result is the string handed to `JSON.parse`
and to the regex recovery. -/
def prepareJsonString (fullResponse : String) : String :=
  let cleaned := stripFences (jsTrim fullResponse).toList
  let cleanJson := (jsTrim (String.mk cleaned)).toList
  let cleanJson := (jsTrim (String.mk (trimToBraces cleanJson))).toList
  let span := extractJsonSpan cleanJson
  let r1 := fixTrailingCommas (span.length + 1) span
  let r2 := quoteKeys (r1.length + 1) r1
  let r3 := stripLineComments (r2.length + 1) r2
  String.mk (stripBlockComments (r3.length + 1) r3)

/-! ## Decoder normalization (parseOllamaResponse success branch)

The source mutates `parsed` in place inside one big try block; the embedding
threads the same state through `Except String`, with every place where the
JavaScript would throw a `TypeError` (string method or `forEach`/`filter` on
a non-matching value, property read on `null`) modelled as `Except.error`.
Non-string values that the source stores without calling methods on them are
kept as their JavaScript string coercion (`jsonToStr`); non-array truthy
`entryPoints`/`coreComponents` values, which the source would pass on to a
merge that then throws, are modelled as empty lists. -/

/-- Backfill module of the decoder's defaults step (source lines 708-716;
note the fixed `other` layer, unlike the tier-4 fallback). -/
def parseBackfillModule (f : FileContext) : Module :=
  ⟨(let n := stripLastExt (lastSeg f.path); if n == "" then f.path else n),
    f.path, inferModuleType f.path, "other", ""⟩

/-- Normalisation of one entry of `parsed.modules` (source lines 615-633). -/
def normModuleE (files : List FileContext) (m : Json) : Except String Module := do
  match m with
  | .jstr s =>
    pure ⟨(let n := stripLastExt (lastSeg s); if n == "" then s else n),
      s, inferModuleType s, "other", ""⟩
  | _ =>
    let pathF ← getFieldE m "path"
    let nameF ← getFieldE m "name"
    let nameForFind := jsonFieldStr nameF ""
    let findPath : Option String :=
      (files.find? (fun f => strContains f.path nameForFind)).map (·.path)
    let fb2 : Json := jsOr nameF (.jstr "")
    let fb1 : Json :=
      match findPath with
      | some fp => if fp == "" then fb2 else .jstr fp
      | none => fb2
    let modulePathJ : Json := jsOr pathF fb1
    let nameFromPath : Except String String := do
      let s ← asStrE modulePathJ
      let n := stripLastExt (lastSeg s)
      pure (if n == "" then "Unknown" else n)
    let name ← (match nameF with
      | some nv => if truthyJ nv then pure (jsonToStr nv) else nameFromPath
      | none => nameFromPath)
    let typeF ← getFieldE m "type"
    let typeFromPath : Except String String := do
      let s ← asStrE modulePathJ
      pure (inferModuleType s)
    let type ← (match typeF with
      | some tv => if truthyJ tv then pure (jsonToStr tv) else typeFromPath
      | none => typeFromPath)
    let layerF ← getFieldE m "layer"
    let descF ← getFieldE m "description"
    pure ⟨name, jsonToStr modulePathJ, type, jsonFieldStr layerF "other", jsonFieldStr descF ""⟩

/-- The filter `r.from && r.to && r.from.length > 0 && r.to.length > 0`:
only non-empty strings and non-empty arrays carry a positive `.length`. -/
def posLengthJ : Json → Bool
  | .jstr s => s ≠ ""
  | .jarr l => decide (0 < l.length)
  | _ => false

/-- Normalisation of `parsed.relationships` (source lines 637-659):
canonicalise the alternate field names, fan out `childModules`, then filter
and store. -/
def normRelsE (l : List Json) : Except String (List Relationship) := do
  let nested ← l.mapM (fun r => do
    let fromF ← getFieldE r "from"
    let pmF ← getFieldE r "parentModule"
    let srcF ← getFieldE r "source"
    let parF ← getFieldE r "parent"
    let fromJ : Json := jsOr fromF (jsOr pmF (jsOr srcF (jsOr parF (.jstr ""))))
    let toF ← getFieldE r "to"
    let cmF ← getFieldE r "childModule"
    let tgtF ← getFieldE r "target"
    let chF ← getFieldE r "child"
    let toJ : Json := jsOr toF (jsOr cmF (jsOr tgtF (jsOr chF (.jstr ""))))
    let cmsF ← getFieldE r "childModules"
    let typeF ← getFieldE r "type"
    let strengthF ← getFieldE r "strength"
    let descF ← getFieldE r "description"
    match cmsF with
    | some (.jarr children) =>
      pure (children.map (fun child =>
        (fromJ, child, jsonFieldStr typeF "uses", jsonFieldStr strengthF "medium",
          jsonFieldStr descF "")))
    | _ =>
      pure [(fromJ, toJ, jsonFieldStr typeF "depends", jsonFieldStr strengthF "medium",
        jsonFieldStr descF "")])
  let flat := nested.flatten
  let kept := flat.filter (fun t => posLengthJ t.1 && posLengthJ t.2.1)
  pure (kept.map (fun t => ⟨jsonToStr t.1, jsonToStr t.2.1, t.2.2.1, t.2.2.2.1, t.2.2.2.2⟩))

/-- The pattern-name literals of the string-pattern regex, in alternation
order, pre-lowercased for the case-insensitive scan. -/
def patternLiterals : List String :=
  ["mvc", "layered", "microservices", "event-driven", "client-server", "monolithic",
    "modular", "component-based"]

/-- Leftmost case-insensitive occurrence of one of the pattern literals,
returning the matched substring in its input spelling (`match(...)?.[0]`). -/
def findPatternLiteral : Nat → List Char → Option String
  | 0, _ => none
  | _, [] => none
  | fuel + 1, c :: tail =>
    let cs := c :: tail
    match patternLiterals.find? (fun lit => prefixCI lit.toList cs) with
    | some lit => some (String.mk (cs.take lit.length))
    | none => findPatternLiteral fuel tail

/-- Pattern-name keyword normalisation (source lines 675-692). -/
def normalizePatternName (s : String) : String :=
  let normalized := jsLower s
  if strContains normalized "mvc" || strContains normalized "model-view-controller" then "MVC"
  else if strContains normalized "layered" || strContains normalized "tier" then "Layered"
  else if strContains normalized "microservice" then "Microservices"
  else if strContains normalized "monolithic" then "Monolithic"
  else if strContains normalized "event" then "Event-Driven"
  else if strContains normalized "client-server" then "Client-Server"
  else if strContains normalized "modular" || strContains normalized "component" then "Layered"
  else s

/-- Read `parsed.modules`/`parsed.relationships` in their current state for a
consumer that iterates them: a normalised list passes through, a falsy field
is `[]`, and a truthy non-array value throws (`forEach` on it). -/
def iterableStateE {α : Type} (state : Option (List α)) (field : Option Json) :
    Except String (List α) :=
  match state with
  | some l => .ok l
  | none =>
    if truthyO field then .error "TypeError: forEach is not a function" else .ok []

/-- Object branch of the pattern normalisation. -/
def normPatternObjE (pv : Json) : Except String Pattern := do
  let nameF ← getFieldE pv "name"
  let patternNameJ : Json := jsOr nameF (.jstr "Unknown")
  let patternNameJ2 : Json :=
    match patternNameJ with
    | .jstr s => .jstr (normalizePatternName s)
    | other => other
  let fallbackConf : ℚ :=
    match patternNameJ2 with
    | .jstr s => if s == "Unknown" then conf03 else conf07
    | _ => conf07
  let confF ← getFieldE pv "confidence"
  let conf : ℚ :=
    match confF with
    | some (.jnum q) => if q = 0 then fallbackConf else q
    | some other => if truthyJ other then fallbackConf else fallbackConf
    | none => fallbackConf
  let descF ← getFieldE pv "description"
  let desc := jsonFieldStr descF ("Architecture pattern: " ++ jsonToStr patternNameJ2)
  pure ⟨jsonToStr patternNameJ2, conf, desc⟩

/-- Pattern normalisation step (source lines 662-698).  A truthy primitive
pattern value is left untouched by the source and reaches the merge as an
opaque value with no `name`; it is modelled by an empty name at confidence 0,
which the merge treats identically (kept by the Unknown filter, confidence
read as 0). -/
def normPatternE (parsed : Json) (modulesState : Option (List Module))
    (modulesField : Option Json) (relsState : Option (List Relationship))
    (relsField : Option Json) : Except String Pattern := do
  let patF ← getFieldE parsed "pattern"
  if !truthyO patF then
    let ms ← iterableStateE modulesState modulesField
    let rs ← iterableStateE relsState relsField
    pure (inferArchitecturalPattern ms rs)
  else
    match patF with
    | some (.jstr pname) =>
      (match findPatternLiteral (pname.toList.length + 1) pname.toList with
       | some mtxt => pure ⟨mtxt, conf08, pname⟩
       | none => pure ⟨"Unknown", conf05, pname⟩)
    | some (.jobj fs) =>
      normPatternObjE (.jobj fs)
    | some (.jarr l) =>
      normPatternObjE (.jarr l)
    | _ => pure ⟨"", 0, ""⟩


/-! ## Layer normalisation (normalizeLayers, source lines 964-1055) -/

/-- Insertion-ordered multimap append. -/
def mapAppend (mp : List (String × List String)) (key : String) (v : String) :
    List (String × List String) :=
  if mp.any (·.1 == key) then
    mp.map (fun kv => if kv.1 == key then (kv.1, kv.2 ++ [v]) else kv)
  else mp ++ [(key, [v])]

/-- The layer map of `normalizeLayers` (module layer, `other` when falsy). -/
def layersByProperty (ms : List Module) : List (String × List String) :=
  ms.foldl (fun mp m => mapAppend mp (if m.layer == "" then "other" else m.layer) m.path) []

/-- The keyword map of `normalizeLayers`: the six keyword groups, keys in
first-trigger insertion order. -/
def layersByKeyword (ms : List Module) : List (String × List String) :=
  ms.foldl
    (fun mp m =>
      let path := jsLower m.path
      let name := jsLower m.name
      let mp := if strContains path "data" || strContains path "model" ||
          strContains path "db" || strContains name "data" || strContains name "database" then
          mapAppend mp "data" m.path else mp
      let mp := if strContains path "cache" || strContains name "cache" then
          mapAppend mp "cache" m.path else mp
      let mp := if strContains path "monitor" || strContains name "monitor" then
          mapAppend mp "monitoring" m.path else mp
      let mp := if strContains path "communication" || strContains path "mattermost" ||
          strContains name "communication" then
          mapAppend mp "communication" m.path else mp
      let mp := if strContains path "service" || strContains name "service" then
          mapAppend mp "service" m.path else mp
      let mp := if strContains path "view" || strContains path "component" ||
          strContains name "view" || strContains name "component" then
          mapAppend mp "presentation" m.path else mp
      mp)
    []

/-- Does this layer entry carry a non-empty `modules` array?  (The read can
throw on a `null` entry.) -/
def layerHasModulesE (l : Json) : Except String Bool := do
  let mf ← getFieldE l "modules"
  pure (match mf with
    | some (.jarr xs) => decide (0 < xs.length)
    | _ => false)

/-- The stored modules of a layer entry (`l.modules || []`, coerced). -/
def layerModulesRaw (l : Json) : Except String (List String) := do
  let mf ← getFieldE l "modules"
  pure (match mf with
    | some (.jarr xs) => xs.map jsonToStr
    | _ => [])

/-- `OllamaClient.normalizeLayers`.  The modules argument is passed as a
suspended `Except` because the early-return branch never touches it (and so
never throws on a non-array `parsed.modules`). -/
def normalizeLayersE (layers : List Json) (msOpt : Except String (List Module)) :
    Except String (List LayerGroup) := do
  let flags ← layers.mapM layerHasModulesE
  if flags.all (fun b => b) then
    layers.mapM (fun l => do
      let nf ← getFieldE l "name"
      let mods ← layerModulesRaw l
      pure (⟨jsonFieldStr nf "Unknown", mods⟩ : LayerGroup))
  else
    let ms ← msOpt
    let layerMap := layersByProperty ms
    let keywordMap := layersByKeyword ms
    layers.mapM (fun l => do
      let nf ← getFieldE l "name"
      let layerName ← (match nf with
        | some nv => if truthyJ nv then (do pure (jsLower (← asStrE nv))) else pure ""
        | none => pure "")
      let exact := (layerMap.find? (·.1 == layerName)).map (·.2)
      let matchedModules : List String ←
        (match exact with
         | some mods => pure mods
         | none =>
           let kw := (keywordMap.find? (fun kv =>
             strContains layerName kv.1 || strContains kv.1 layerName)).map (·.2)
           match kw with
           | some mods => pure mods
           | none =>
             let pm := (layerMap.find? (fun kv =>
               strContains layerName kv.1 || strContains kv.1 layerName)).map (·.2)
             match pm with
             | some mods => pure mods
             | none => do
               let mf ← getFieldE l "modules"
               pure (match mf with
                 | some (.jarr xs) => if truthyJ (.jarr xs) then xs.map jsonToStr else []
                 | _ => []))
      pure (⟨jsonFieldStr nf "Unknown", matchedModules⟩ : LayerGroup))

/-- Defaults-and-assembly step of the success branch (source lines 700-742),
following the source's statement order: modules, relationships, pattern,
layers, then the backfills and field defaults. -/
def normalizeParsedE (parsed : Json) (files : List FileContext) :
    Except String ArchitectureAnalysis := do
  let modulesField ← getFieldE parsed "modules"
  let modulesState : Option (List Module) ←
    (match modulesField with
     | some (.jarr l) => some <$> l.mapM (normModuleE files)
     | _ => pure none)
  let relsField ← getFieldE parsed "relationships"
  let relsState : Option (List Relationship) ←
    (match relsField with
     | some (.jarr l) => some <$> normRelsE l
     | _ => pure none)
  let pattern ← normPatternE parsed modulesState modulesField relsState relsField
  let layersField ← getFieldE parsed "layers"
  let layersVal : List LayerGroup ←
    (match layersField with
     | none => do pure (groupByLayers (← iterableStateE modulesState modulesField))
     | some lv =>
       if !truthyJ lv then do pure (groupByLayers (← iterableStateE modulesState modulesField))
       else
         match lv with
         | .jarr [] => do pure (groupByLayers (← iterableStateE modulesState modulesField))
         | .jarr ls => normalizeLayersE ls (iterableStateE modulesState modulesField)
         | _ => .error "TypeError: filter is not a function")
  let modulesFinal : List Module :=
    match modulesState with
    | some l => if l.isEmpty then files.map parseBackfillModule else l
    | none => files.map parseBackfillModule
  let relsFinal : List Relationship := relsState.getD []
  let sumF ← getFieldE parsed "summary"
  let summary := jsonFieldStr sumF
    ("Chunk analysis: " ++ toString modulesFinal.length ++ " modules, " ++
      toString relsFinal.length ++ " relationships")
  let epF ← getFieldE parsed "entryPoints"
  let entryPoints : List String :=
    match epF with
    | some (.jarr l) => l.map jsonToStr
    | _ => []
  let ccF ← getFieldE parsed "coreComponents"
  let coreComponents : List String :=
    match ccF with
    | some (.jarr l) => l.map jsonToStr
    | _ => []
  pure ⟨modulesFinal, relsFinal, summary, pattern, layersVal, entryPoints, coreComponents⟩

/-! ## Regex recovery (parseOllamaResponse catch branch, lines 743-786) -/

/-- Lazy search for the `]` closing a field span, subject to the lookahead
`(?=\s*[,}])`: the smallest index whose bracket is followed, after optional
whitespace, by a comma or closing brace. -/
def lazyCloseBracket : Nat → Nat → List Char → Option Nat
  | 0, _, _ => none
  | _, _, [] => none
  | fuel + 1, j, c :: r =>
    if c = ']' &&
        (match r.dropWhile isJsWs with
         | x :: _ => x = ',' || x = '}'
         | [] => false) then some j
    else lazyCloseBracket fuel (j + 1) r

/-- Scan for `/"FIELD"\s*:\s*\[([\s\S]*?)\](?=\s*[,}])/`, returning the
captured span of the first succeeding start position. -/
def fieldArrScan (field : List Char) : Nat → List Char → Option String
  | 0, _ => none
  | _, [] => none
  | fuel + 1, c :: tail =>
    let cs := c :: tail
    match matchLit field cs with
    | some r1 =>
      (match r1.dropWhile isJsWs with
       | ':' :: r3 =>
         (match r3.dropWhile isJsWs with
          | '[' :: r5 =>
            (match lazyCloseBracket (r5.length + 1) 0 r5 with
             | some j => some (String.mk (r5.take j))
             | none => fieldArrScan field fuel tail)
          | _ => fieldArrScan field fuel tail)
       | _ => fieldArrScan field fuel tail)
    | none => fieldArrScan field fuel tail

/-- Body of `((?:[^"\\]|\\.)*)"` after the opening quote: any characters, a
backslash consuming the next character (but not a newline), up to the closing
quote; the capture keeps the backslashes. -/
def summContent : Nat → List Char → List Char → Option String
  | 0, _, _ => none
  | _, _, [] => none
  | fuel + 1, acc, c :: r =>
    if c = '"' then some (String.mk acc.reverse)
    else if c = '\\' then
      match r with
      | e :: r2 => if e = '\n' then none else summContent fuel (e :: '\\' :: acc) r2
      | [] => none
    else summContent fuel (c :: acc) r

/-- Scan for `/"summary"\s*:\s*"((?:[^"\\]|\\.)*)"/`. -/
def summaryStrScan : Nat → List Char → Option String
  | 0, _ => none
  | _, [] => none
  | fuel + 1, c :: tail =>
    let cs := c :: tail
    match matchLit "\"summary\"".toList cs with
    | some r1 =>
      (match r1.dropWhile isJsWs with
       | ':' :: r3 =>
         (match r3.dropWhile isJsWs with
          | '"' :: r5 =>
            (match summContent (r5.length + 1) [] r5 with
             | some s => some s
             | none => summaryStrScan fuel tail)
          | _ => summaryStrScan fuel tail)
       | _ => summaryStrScan fuel tail)
    | none => summaryStrScan fuel tail

/-- Literal global replacement (`replace(/PAT/g, REP)` for literal text). -/
def replaceAllLit (pat rep : List Char) : Nat → List Char → List Char
  | 0, cs => cs
  | _, [] => []
  | fuel + 1, c :: r =>
    let cs := c :: r
    if pat ≠ [] && pat.isPrefixOf cs then rep ++ replaceAllLit pat rep fuel (cs.drop pat.length)
    else c :: replaceAllLit pat rep fuel r

/-- The summary unescaping `replace(/\\"/g, '"').replace(/\\n/g, '\n')`. -/
def unescapeSummary (s : String) : String :=
  let cs := s.toList
  let p1 := replaceAllLit ['\\', '"'] ['"'] (cs.length + 1) cs
  String.mk (replaceAllLit ['\\', 'n'] ['\n'] (p1.length + 1) p1)

/-- Field read of a raw recovered relationship object.  The source stores
these parsed values unchanged; the merge later reads `from`/`to` through the
template key and keeps the record as is.  Missing fields coerce like
JavaScript `undefined` in a template literal. -/
def rawField (j : Json) (k : String) : String :=
  match j with
  | .jobj fs =>
    (match (fs.reverse.find? (fun kv => kv.1 == k)).map (·.2) with
     | some v => jsonToStr v
     | none => "undefined")
  | _ => "undefined"

/-- A raw recovered relationship record. -/
def rawRelOf (j : Json) : Relationship :=
  ⟨rawField j "from", rawField j "to", rawField j "type", rawField j "strength",
    rawField j "description"⟩

/-- Recovery of one module from the regex-extracted `modules` span (source
lines 759-765; `m.path?.split` throws on a non-string non-null path). -/
def recModE (m : Json) : Except String Module := do
  let nameF ← getFieldE m "name"
  let pathF ← getFieldE m "path"
  let recNameFromPath : Except String String :=
    match pathF with
    | none => pure "Unknown"
    | some .jnull => pure "Unknown"
    | some (.jstr s) =>
      (let n := stripLastExt (lastSeg s)
       pure (if n == "" then "Unknown" else n))
    | some _ => .error "TypeError: split is not a function"
  let name ← (match nameF with
    | some nv => if truthyJ nv then pure (jsonToStr nv) else recNameFromPath
    | none => recNameFromPath)
  let path := jsonFieldStr pathF (jsonFieldStr nameF "")
  let typeF ← getFieldE m "type"
  let recType : Except String String := do
    let s ← asStrE (jsOr pathF (jsOr nameF (.jstr "")))
    pure (inferModuleType s)
  let type ← (match typeF with
    | some tv => if truthyJ tv then pure (jsonToStr tv) else recType
    | none => recType)
  let layerF ← getFieldE m "layer"
  let descF ← getFieldE m "description"
  pure ⟨name, path, type, jsonFieldStr layerF "other", jsonFieldStr descF ""⟩

/-- The whole regex-recovery attempt: every exception inside it is caught by
the surrounding try/catch pairs of the source and leads to the final
fallback, so the model returns `none` for all of them. -/
def regexRecovery (jsonString : String) : Option ArchitectureAnalysis :=
  let cs := jsonString.toList
  let modulesMatch := fieldArrScan "\"modules\"".toList (cs.length + 1) cs
  let relationshipsMatch := fieldArrScan "\"relationships\"".toList (cs.length + 1) cs
  let summaryMatch := summaryStrScan (cs.length + 1) cs
  match modulesMatch with
  | none => none
  | some inner =>
    match (do
        let mj ← jsonParse ("[" ++ inner ++ "]")
        match mj with
        | .jarr l => l.mapM recModE
        | _ => .error "not an array" : Except String (List Module)) with
    | .error _ => none
    | .ok mods =>
      let rels : List Relationship :=
        match relationshipsMatch with
        | some rinner =>
          (match jsonParse ("[" ++ rinner ++ "]") with
           | .ok (.jarr l) => l.map rawRelOf
           | _ => [])
        | none => []
      some ⟨mods, rels,
        (match summaryMatch with
         | some s => unescapeSummary s
         | none => "Chunk analysis completed"),
        ⟨"Unknown", conf03, "Partial recovery"⟩, [], [], []⟩

/-- The guarded parse attempt of the big try block: parse the repaired
string, then normalise the parsed value. -/
def parseAttempt (jsonString : String) (files : List FileContext) :
    Except String ArchitectureAnalysis := do
  let parsed ← jsonParse jsonString
  normalizeParsedE parsed files

/-- `OllamaClient.parseOllamaResponse`: the four-tier decoder.  Thrown
JavaScript exceptions are `Except.error` values; the try/catch structure of
the source is the match ladder below, ending in the tier-4 fallback (the
source binds the repaired string once; it is a pure value, written out twice
here). -/
def parseOllamaResponse (fullResponse : String) (files : List FileContext) :
    Except String ArchitectureAnalysis :=
  if (jsTrim fullResponse).length = 0 then .ok (createFallbackAnalysis files)
  else
    match parseAttempt (prepareJsonString fullResponse) files with
    | .ok a => .ok a
    | .error _ =>
      match regexRecovery (prepareJsonString fullResponse) with
      | some a => .ok a
      | none => .ok (createFallbackAnalysis files)

/-! ## Rule conditions of the heuristic pattern classifier -/

/-- Rule 1: controller, view and model modules are all present. -/
def MvcCond (ms : List Module) : Prop :=
  (∃ m ∈ ms, controllerSignal m = true) ∧ (∃ m ∈ ms, viewSignal m = true) ∧
    (∃ m ∈ ms, modelSignal m = true)

/-- Rule 2: explicit layer diversity, or service, model and view together. -/
def LayeredCond (ms : List Module) : Prop :=
  (∃ m ∈ ms, layerSignal m = true) ∨
    ((∃ m ∈ ms, serviceSignal m = true) ∧ (∃ m ∈ ms, modelSignal m = true) ∧
      (∃ m ∈ ms, viewSignal m = true))

/-- Rule 3: Next.js-style paths, or React paths together with components. -/
def ComponentCond (ms : List Module) : Prop :=
  (∃ m ∈ ms, nextSignal m = true) ∨
    ((∃ m ∈ ms, reactSignal m = true) ∧ (∃ m ∈ ms, componentSignal m = true))

/-- Rule 4: Flask-style entry files together with route or api paths. -/
def FlaskCond (ms : List Module) : Prop :=
  (∃ m ∈ ms, flaskSignal m = true) ∧ (∃ m ∈ ms, routeSignal m = true)

/-- Rule 5: services, more than five modules, and relationships over half the
module count. -/
def MicroservicesCond (ms : List Module) (rs : List Relationship) : Prop :=
  (∃ m ∈ ms, serviceSignal m = true) ∧ ms.length > 5 ∧ 2 * rs.length > ms.length

/-- Rule 6: more than three modules with some service, model or view signal. -/
def DefaultLayeredCond (ms : List Module) : Prop :=
  ms.length > 3 ∧
    ((∃ m ∈ ms, serviceSignal m = true) ∨ (∃ m ∈ ms, modelSignal m = true) ∨
      (∃ m ∈ ms, viewSignal m = true))

/-! ## Concrete inputs used by the claim instances -/

/-- Two-file corpus: `src/a.ts` importing `./util`, and `src/util.ts`. -/
def exCorpus : List FileContext :=
  [⟨"src/a.ts", "import \x7bx\x7d from \"./util\""⟩, ⟨"src/util.ts", ""⟩]

/-- A fragment mentioning one corpus file and one invented path. -/
def fragPartial : ArchitectureAnalysis :=
  ⟨[⟨"A", "src/a.ts", "other", "other", ""⟩, ⟨"Ghost", "ghost.ts", "other", "other", ""⟩],
    [], "p", ⟨"Unknown", 0, ""⟩, [], [], []⟩

/-- A fragment whose pattern is Unknown at confidence 0.3. -/
def fragUnknown : ArchitectureAnalysis := ⟨[], [], "u", ⟨"Unknown", conf03, "d"⟩, [], [], []⟩

/-- A fragment whose pattern is Layered at confidence 0.6. -/
def fragLayered : ArchitectureAnalysis := ⟨[], [], "l", ⟨"Layered", conf06, "dl"⟩, [], [], []⟩

/-- A fragment whose pattern is MVC at confidence 0.85. -/
def fragMvc : ArchitectureAnalysis := ⟨[], [], "m", ⟨"MVC", conf085, "dm"⟩, [], [], []⟩

/-- Two relationships with distinct `(from, to)` pairs but one key. -/
def relAB_C : Relationship := ⟨"a->b", "c", "uses", "medium", ""⟩

/-- The colliding partner of `relAB_C`. -/
def relA_BC : Relationship := ⟨"a", "b->c", "uses", "medium", ""⟩

/-- A fragment carrying the colliding pair. -/
def fragCollision : ArchitectureAnalysis :=
  ⟨[], [relAB_C, relA_BC], "s", ⟨"Unknown", 0, ""⟩, [], [], []⟩

/-- A high-scoring non-entry service file. -/
def exServicesFile : FileContext := ⟨"app/services/a.service.ts", ""⟩

/-- An entry-point file scoring below the service file. -/
def exIndexFile : FileContext := ⟨"index.ts", ""⟩

/-- Four service-typed modules with neutral paths. -/
def svcModulesEx : List Module :=
  [⟨"a", "sa", "service", "other", ""⟩, ⟨"b", "sb", "service", "other", ""⟩,
    ⟨"c", "sc", "service", "other", ""⟩, ⟨"d", "sd", "service", "other", ""⟩]

/-- Controller, view and model modules with neutral layers. -/
def mvcModulesEx : List Module :=
  [⟨"a", "x/controller/a", "", "other", ""⟩, ⟨"b", "y/view/b", "", "other", ""⟩,
    ⟨"c", "z/model/c", "", "other", ""⟩]

/-- Twelve distinct one-byte corpus files. -/
def files12 : List FileContext :=
  [⟨"f1", ""⟩, ⟨"f2", ""⟩, ⟨"f3", ""⟩, ⟨"f4", ""⟩, ⟨"f5", ""⟩, ⟨"f6", ""⟩,
    ⟨"f7", ""⟩, ⟨"f8", ""⟩, ⟨"f9", ""⟩, ⟨"f10", ""⟩, ⟨"f11", ""⟩, ⟨"f12", ""⟩]

/-- Invariant of the `relationshipSet`/`relationships` pair: the key set is
exactly the key image of the output list, without duplicates. -/
def RelInv (st : List String × List Relationship) : Prop :=
  st.1 = st.2.map relKey ∧ st.1.Nodup

/-! ## Theorems

Bridge lemmas for the confidence constants, the supporting invariants, and
the claim theorems. -/

/-- The constant `conf085` denotes 0.85. -/
theorem conf085_eq : conf085 = 0.85 := by
  rw [conf085, Rat.mk'_eq_divInt, Rat.divInt_eq_div]; norm_num

/-- The constant `conf08` denotes 0.8. -/
theorem conf08_eq : conf08 = 0.8 := by
  rw [conf08, Rat.mk'_eq_divInt, Rat.divInt_eq_div]; norm_num

/-- The constant `conf075` denotes 0.75. -/
theorem conf075_eq : conf075 = 0.75 := by
  rw [conf075, Rat.mk'_eq_divInt, Rat.divInt_eq_div]; norm_num

/-- The constant `conf07` denotes 0.7. -/
theorem conf07_eq : conf07 = 0.7 := by
  rw [conf07, Rat.mk'_eq_divInt, Rat.divInt_eq_div]; norm_num

/-- The constant `conf06` denotes 0.6. -/
theorem conf06_eq : conf06 = 0.6 := by
  rw [conf06, Rat.mk'_eq_divInt, Rat.divInt_eq_div]; norm_num

/-- The constant `conf05` denotes 0.5. -/
theorem conf05_eq : conf05 = 0.5 := by
  rw [conf05, Rat.mk'_eq_divInt, Rat.divInt_eq_div]; norm_num

/-- The constant `conf03` denotes 0.3. -/
theorem conf03_eq : conf03 = 0.3 := by
  rw [conf03, Rat.mk'_eq_divInt, Rat.divInt_eq_div]; norm_num

/-! ## General fold lemmas -/

/-- A predicate preserved by every step of a left fold holds of its result. -/
theorem foldl_preserves {α σ : Type _} {P : σ → Prop} {g : σ → α → σ}
    (hg : ∀ st a, P st → P (g st a)) :
    ∀ (l : List α) (st : σ), P st → P (l.foldl g st) := by
  intro l
  induction l with
  | nil => intro st h; exact h
  | cons a t ih => intro st h; exact ih (g st a) (hg st a h)

/-- Counting a conjunction of predicates where the second follows from the
first on every member. -/
theorem countP_and_of_imp {α : Type _} {p q : α → Bool} :
    ∀ {l : List α}, (∀ x ∈ l, p x = true → q x = true) →
      l.countP (fun x => p x && q x) = l.countP p := by
  intro l
  induction l with
  | nil => intro _; rfl
  | cons a t ih =>
    intro h
    rw [List.countP_cons, List.countP_cons, ih (fun x hx => h x (List.mem_cons_of_mem a hx))]
    by_cases hp : p a = true
    · simp [hp, h a (List.mem_cons_self a t) hp]
    · simp [Bool.eq_false_iff.mpr hp]

/-- A list whose members all belong to a `Nodup` list, with one occurrence
forced, counts exactly one. -/
theorem count_eq_one_of_nodup_mem {l : List String} {a : String}
    (h : l.Nodup) (hm : a ∈ l) : l.count a = 1 :=
  Nat.le_antisymm (List.nodup_iff_count_le_one.mp h a) (List.count_pos_iff.mpr hm)

/-! ## Relationship-state invariant -/

theorem addRel_inv {st : List String × List Relationship} {r : Relationship}
    (h : RelInv st) : RelInv (addRel st r) := by
  obtain ⟨h1, h2⟩ := h
  unfold addRel
  split
  · exact ⟨h1, h2⟩
  · rename_i hc
    refine ⟨by simp [h1], ?_⟩
    have hnot : relKey r ∉ st.1 := by
      intro hm
      exact hc (by simpa using hm)
    simp [List.nodup_append, h2, hnot]

theorem importEdgeStep_inv {mp : List String} {fs : List FileContext} {fp : String}
    {st : List String × List Relationship} {imp : String}
    (h : RelInv st) : RelInv (importEdgeStep mp fs fp st imp) := by
  unfold importEdgeStep
  split
  · split
    · exact addRel_inv h
    · exact h
  · exact h

theorem mergeRelationships_inv (chunkResults : List ArchitectureAnalysis) :
    RelInv (chunkResults.foldl (fun st c => c.relationships.foldl addRel st) ([], [])) := by
  refine foldl_preserves ?_ chunkResults ([], []) ⟨rfl, List.nodup_nil⟩
  intro st c h
  exact foldl_preserves (fun st r h => addRel_inv h) c.relationships st h

theorem inferAllRelationships_key_nodup (allModules : List Module)
    (allFiles : List FileContext) (ex : List Relationship)
    (hex : (ex.map relKey).Nodup) :
    ((inferAllRelationships allModules allFiles ex).map relKey).Nodup := by
  unfold inferAllRelationships
  have h : RelInv (allFiles.foldl
      (fun st file => (scanImports file.content).foldl
        (importEdgeStep (allModules.map (·.path)) allFiles file.path) st)
      (ex.map relKey, ex)) := by
    refine foldl_preserves ?_ allFiles (ex.map relKey, ex) ⟨rfl, hex⟩
    intro st file h
    exact foldl_preserves (fun st imp h => importEdgeStep_inv h) (scanImports file.content) st h
  obtain ⟨h1, h2⟩ := h
  rw [← h1]
  exact h2

/-- The merged relationship list of `mergeChunkResults` carries pairwise
distinct keys, and hence pairwise distinct `(from, to)` pairs. -/
theorem mergeChunkResults_rel_key_nodup (chunkResults : List ArchitectureAnalysis)
    (allFiles selectedFiles : List FileContext) :
    (((mergeChunkResults chunkResults allFiles selectedFiles).relationships).map relKey).Nodup := by
  have hrels : (mergeChunkResults chunkResults allFiles selectedFiles).relationships =
      inferAllRelationships
        (mergeWithAllFiles (mergeModuleMap chunkResults) allFiles selectedFiles)
        allFiles (mergeRelationships chunkResults) := rfl
  rw [hrels]
  refine inferAllRelationships_key_nodup _ _ _ ?_
  have h := mergeRelationships_inv chunkResults
  obtain ⟨h1, h2⟩ := h
  unfold mergeRelationships
  rw [← h1]
  exact h2

/-! ## Module map invariants and completeness -/

theorem mergeModuleMap_path_nodup (chunkResults : List ArchitectureAnalysis) :
    ((mergeModuleMap chunkResults).map Module.path).Nodup := by
  unfold mergeModuleMap
  refine foldl_preserves (P := fun acc : List Module => (acc.map Module.path).Nodup)
    ?_ chunkResults [] List.nodup_nil
  intro acc c h
  refine foldl_preserves (P := fun acc : List Module => (acc.map Module.path).Nodup)
    ?_ c.modules acc h
  intro acc m h
  split
  · exact h
  · rename_i hc
    have hnot : m.path ∉ acc.map Module.path := by
      intro hm
      obtain ⟨x, hx, hxe⟩ := List.mem_map.mp hm
      exact hc (List.any_eq_true.mpr ⟨x, hx, by simp [hxe]⟩)
    simp [List.nodup_append, h, hnot]

theorem mergeWithAllFiles_count {analyzed : List Module} {allFiles selectedFiles : List FileContext}
    (hA : (analyzed.map Module.path).Nodup) (hN : (allFiles.map FileContext.path).Nodup)
    {f : FileContext} (hf : f ∈ allFiles) :
    ((mergeWithAllFiles analyzed allFiles selectedFiles).map Module.path).count f.path = 1 := by
  unfold mergeWithAllFiles
  rw [List.map_append, List.count_append]
  have hback : ((allFiles.filter (fun x => !(analyzed.map Module.path).contains x.path)).map
      (fun f => ({ name := let n := stripLastExt (lastSeg f.path); if n == "" then f.path else n
                   path := f.path
                   type := inferModuleType f.path
                   layer := inferLayer f.path
                   description := inferDescription f.path f.content } : Module))).map Module.path =
      (allFiles.filter (fun x => !(analyzed.map Module.path).contains x.path)).map
        FileContext.path := by
    rw [List.map_map]
    rfl
  rw [hback]
  by_cases hmem : f.path ∈ analyzed.map Module.path
  · have h1 : (analyzed.map Module.path).count f.path = 1 := count_eq_one_of_nodup_mem hA hmem
    have h2 : ((allFiles.filter (fun x => !(analyzed.map Module.path).contains x.path)).map
        FileContext.path).count f.path = 0 := by
      rw [List.count_eq_zero]
      intro hm
      obtain ⟨x, hx, hxe⟩ := List.mem_map.mp hm
      obtain ⟨_, hq⟩ := List.mem_filter.mp hx
      rw [Bool.not_eq_true'] at hq
      have : x.path ∈ analyzed.map Module.path := hxe ▸ hmem
      simp [this] at hq
    omega
  · have h1 : (analyzed.map Module.path).count f.path = 0 := List.count_eq_zero.mpr hmem
    have h2 : ((allFiles.filter (fun x => !(analyzed.map Module.path).contains x.path)).map
        FileContext.path).count f.path = 1 := by
      rw [List.count_eq_countP, List.countP_map, List.countP_filter]
      simp only [Function.comp]
      have heq : allFiles.countP
          (fun x => (FileContext.path x == f.path) && !(analyzed.map Module.path).contains x.path) =
          allFiles.countP (fun x => FileContext.path x == f.path) := by
        refine countP_and_of_imp ?_
        intro x _ hx
        have : x.path = f.path := by simpa using hx
        rw [Bool.not_eq_true']
        rw [← Bool.not_eq_true]
        intro hcont
        exact hmem (this ▸ (by simpa using hcont))
      rw [heq]
      have : allFiles.countP (fun x => FileContext.path x == f.path) =
          (allFiles.map FileContext.path).count f.path := by
        rw [List.count_eq_countP, List.countP_map]
        rfl
      rw [this]
      exact count_eq_one_of_nodup_mem hN (List.mem_map_of_mem FileContext.path hf)
    omega

/-- Shared form of the completeness invariant: each corpus path appears
exactly once among the merged module paths. -/
theorem mergeChunkResults_count (chunkResults : List ArchitectureAnalysis)
    (allFiles selectedFiles : List FileContext)
    (hN : (allFiles.map FileContext.path).Nodup) :
    ∀ f ∈ allFiles,
      (((mergeChunkResults chunkResults allFiles selectedFiles).modules).map Module.path).count
        f.path = 1 := by
  intro f hf
  have hmods : (mergeChunkResults chunkResults allFiles selectedFiles).modules =
      mergeWithAllFiles (mergeModuleMap chunkResults) allFiles selectedFiles := rfl
  rw [hmods]
  exact mergeWithAllFiles_count (mergeModuleMap_path_nodup chunkResults) hN hf

/-! ## Length lemmas for the selection pipeline -/

theorem length_insertDesc (sc : FileContext → Int) (x : FileContext) :
    ∀ l : List FileContext, (insertDesc sc x l).length = l.length + 1 := by
  intro l
  induction l with
  | nil => rfl
  | cons y ys ih =>
    unfold insertDesc
    split
    · simpa using ih
    · simp

theorem length_sortByScoreDesc (sc : FileContext → Int) :
    ∀ l : List FileContext, (sortByScoreDesc sc l).length = l.length := by
  intro l
  induction l with
  | nil => rfl
  | cons x xs ih =>
    unfold sortByScoreDesc
    rw [length_insertDesc, ih]
    rfl

theorem length_le_foldl_forceEntry (files : List FileContext) :
    ∀ (eps : List String) (sel : List FileContext),
      sel.length ≤ (eps.foldl (forceEntryStep files) sel).length := by
  intro eps
  induction eps with
  | nil => intro sel; exact Nat.le_refl _
  | cons e t ih =>
    intro sel
    refine Nat.le_trans ?_ (ih (forceEntryStep files sel e))
    unfold forceEntryStep
    split
    · exact Nat.le_refl _
    · split
      · simp
      · exact Nat.le_refl _

theorem selectImportantFiles_length {files : List FileContext} {maxFiles : Nat}
    (h : files.length > maxFiles) :
    (selectImportantFiles files maxFiles).length = maxFiles := by
  unfold selectImportantFiles
  rw [if_neg (by omega)]
  rw [List.length_take]
  have h1 : (sortByScoreDesc (fun f =>
      fileScore (findEntryPoints files) (findCoreFiles files) (buildImportGraph files) f)
      files).length = files.length := length_sortByScoreDesc _ _
  have h2 := length_le_foldl_forceEntry files (findEntryPoints files)
    ((sortByScoreDesc (fun f =>
      fileScore (findEntryPoints files) (findCoreFiles files) (buildImportGraph files) f)
      files).take maxFiles)
  rw [List.length_take, h1] at h2
  omega

theorem chunksOf_length_le : ∀ (fuel : Nat) (l : List FileContext),
    (chunksOf fuel l).length ≤ (l.length + 4) / 5 := by
  intro fuel
  induction fuel with
  | zero => intro l; simp [chunksOf]
  | succ n ih =>
    intro l
    cases l with
    | nil => simp [chunksOf]
    | cons c r =>
      have := ih ((c :: r).drop 5)
      rw [List.length_drop] at this
      simp only [List.length_cons] at this
      simp only [chunksOf, List.length_cons]
      omega

/-! ## All-fallback lemmas -/

theorem mergeRelationships_fallback (chunks : List (List FileContext)) :
    mergeRelationships (chunks.map createFallbackAnalysis) = [] := by
  unfold mergeRelationships
  rw [List.foldl_map]
  have : ∀ (st : List String × List Relationship),
      chunks.foldl (fun st ch => (createFallbackAnalysis ch).relationships.foldl addRel st) st = st := by
    intro st
    induction chunks generalizing st with
    | nil => rfl
    | cons c t ih => exact ih st
  rw [this]

theorem mergeBestPattern_fallback (chunks : List (List FileContext)) :
    mergeBestPattern (chunks.map createFallbackAnalysis) =
      ⟨"Unknown", 0, "Could not determine pattern"⟩ := by
  unfold mergeBestPattern
  have : ((chunks.map createFallbackAnalysis).map (·.pattern)).filter
      (fun p => p.name ≠ "Unknown") = [] := by
    rw [List.map_map]
    refine List.filter_eq_nil_iff.mpr ?_
    intro p hp
    obtain ⟨ch, _, he⟩ := List.mem_map.mp hp
    simp [← he, createFallbackAnalysis]
  rw [this]

theorem importEdgeStep_types {mp : List String} {fs : List FileContext} {fp : String}
    {st : List String × List Relationship} {imp : String}
    (h : ∀ r ∈ st.2, r.type = "imports") :
    ∀ r ∈ (importEdgeStep mp fs fp st imp).2, r.type = "imports" := by
  unfold importEdgeStep
  split
  · split
    · unfold addRel
      split
      · exact h
      · intro r hr
        rcases List.mem_append.mp hr with hr | hr
        · exact h r hr
        · simp at hr
          rw [hr]
    · exact h
  · exact h

theorem inferAllRelationships_types_of_empty (allModules : List Module)
    (allFiles : List FileContext) :
    ∀ r ∈ inferAllRelationships allModules allFiles [], r.type = "imports" := by
  unfold inferAllRelationships
  refine foldl_preserves
    (P := fun st : List String × List Relationship => ∀ r ∈ st.2, r.type = "imports")
    ?_ allFiles _ ?_
  · intro st file h
    exact foldl_preserves
      (P := fun st : List String × List Relationship => ∀ r ∈ st.2, r.type = "imports")
      (g := importEdgeStep (allModules.map (·.path)) allFiles file.path)
      (fun st imp h => importEdgeStep_types h) (scanImports file.content) st h
  · intro r hr
    simp at hr

/-! ## Best-pattern decomposition -/

theorem foldl_pickBest_decomp : ∀ (t : List Pattern) (h : Pattern),
    ∃ l1 l2, h :: t = l1 ++ (t.foldl pickBest h) :: l2 ∧
      (∀ p ∈ l1, p.confidence < (t.foldl pickBest h).confidence) ∧
      (∀ p ∈ l2, p.confidence ≤ (t.foldl pickBest h).confidence) := by
  intro t
  induction t with
  | nil =>
    intro h
    exact ⟨[], [], by simp, by simp, by simp⟩
  | cons x t' ih =>
    intro h
    rw [List.foldl_cons]
    obtain ⟨l1, l2, heq, hlt, hle⟩ := ih (pickBest h x)
    set R := t'.foldl pickBest (pickBest h x) with hRdef
    have hhead : (pickBest h x).confidence ≤ R.confidence := by
      cases l1 with
      | nil =>
        simp only [List.nil_append] at heq
        exact le_of_eq (congrArg Pattern.confidence ((List.cons.injEq _ _ _ _).mp heq).1)
      | cons a l1' =>
        have heq2 : (pickBest h x) :: t' = a :: (l1' ++ R :: l2) := by simpa using heq
        have ha : (pickBest h x).confidence = a.confidence :=
          congrArg Pattern.confidence ((List.cons.injEq _ _ _ _).mp heq2).1
        rw [ha]
        exact le_of_lt (hlt a (List.mem_cons_self a l1'))
    by_cases hcmp : h.confidence < x.confidence
    · have hpx : pickBest h x = x := by simp [pickBest, hcmp]
      rw [hpx] at heq hhead
      refine ⟨h :: l1, l2, ?_, ?_, hle⟩
      · rw [List.cons_append, ← heq]
      · intro p hp
        rcases List.mem_cons.mp hp with hp | hp
        · rw [hp]
          exact lt_of_lt_of_le hcmp hhead
        · exact hlt p hp
    · have hpx : pickBest h x = h := by simp [pickBest, hcmp]
      have hxh : x.confidence ≤ h.confidence := le_of_not_lt hcmp
      rw [hpx] at heq hhead
      cases l1 with
      | nil =>
        simp only [List.nil_append] at heq
        obtain ⟨hr, hl2⟩ := (List.cons.injEq _ _ _ _).mp heq
        refine ⟨[], x :: l2, ?_, by simp, ?_⟩
        · simp only [List.nil_append]
          rw [← hr, hl2]
        · intro p hp
          rcases List.mem_cons.mp hp with hp | hp
          · rw [hp]
            exact le_trans hxh (le_of_eq (congrArg Pattern.confidence hr))
          · exact hle p hp
      | cons a l1' =>
        have heq2 : h :: t' = a :: (l1' ++ R :: l2) := by simpa using heq
        obtain ⟨hah, ht'⟩ := (List.cons.injEq _ _ _ _).mp heq2
        have hh : h.confidence < R.confidence := by
          rw [congrArg Pattern.confidence hah]
          exact hlt a (List.mem_cons_self a l1')
        refine ⟨h :: x :: l1', l2, ?_, ?_, hle⟩
        · rw [ht']
          simp
        · intro p hp
          rcases List.mem_cons.mp hp with hp | hp
          · rw [hp]; exact hh
          · rcases List.mem_cons.mp hp with hp | hp
            · rw [hp]; exact lt_of_le_of_lt hxh hh
            · exact hlt p (List.mem_cons_of_mem a hp)

/-! ## Claim theorems -/

/-- C1: for every merge input over a corpus with distinct paths, every input
file path appears as exactly one module record in the final graph, regardless
of which chunks succeeded or failed (unmentioned files are backfilled). -/
theorem mergeChunkResults_modules_complete (chunkResults : List ArchitectureAnalysis)
    (allFiles selectedFiles : List FileContext)
    (hN : (allFiles.map FileContext.path).Nodup) :
    ∀ f ∈ allFiles,
      (((mergeChunkResults chunkResults allFiles selectedFiles).modules).map Module.path).count
        f.path = 1 :=
  mergeChunkResults_count chunkResults allFiles selectedFiles hN

/-- Witness for C1 on the two-file corpus with a partial fragment. -/
theorem mergeChunkResults_modules_complete_witness :
    (((mergeChunkResults [fragPartial] exCorpus exCorpus).modules).map Module.path).count
      "src/a.ts" = 1 ∧
    (((mergeChunkResults [fragPartial] exCorpus exCorpus).modules).map Module.path).count
      "src/util.ts" = 1 := by
  have h := mergeChunkResults_modules_complete [fragPartial] exCorpus exCorpus (by decide)
  exact ⟨h ⟨"src/a.ts", "import \x7bx\x7d from \"./util\""⟩ (by decide),
    h ⟨"src/util.ts", ""⟩ (by decide)⟩

/-- C3: no two relationship records of the merged graph share a key, hence no
two share the same `(from, to)` pair — also after the import-resolver
backfill. -/
theorem mergeChunkResults_relationships_dedup (chunkResults : List ArchitectureAnalysis)
    (allFiles selectedFiles : List FileContext) :
    (((mergeChunkResults chunkResults allFiles selectedFiles).relationships).map relKey).Nodup ∧
    ((mergeChunkResults chunkResults allFiles selectedFiles).relationships).Pairwise
      (fun r1 r2 => ¬(r1.rfrom = r2.rfrom ∧ r1.rto = r2.rto)) := by
  have h := mergeChunkResults_rel_key_nodup chunkResults allFiles selectedFiles
  refine ⟨h, ?_⟩
  have h2 := (List.pairwise_map).mp h
  refine h2.imp ?_
  intro a b hk hc
  obtain ⟨h1, h2'⟩ := hc
  apply hk
  unfold relKey
  rw [h1, h2']

/-- C10: the deduplication key is the string concatenation `from + "->" + to`,
so two relationships with distinct ordered pairs can collide; the later one is
dropped by the merge. -/
theorem relationship_key_collision :
    relKey relAB_C = relKey relA_BC ∧
    (relAB_C.rfrom, relAB_C.rto) ≠ (relA_BC.rfrom, relA_BC.rto) ∧
    (mergeChunkResults [fragCollision] [] []).relationships = [relAB_C] := by decide

/-- C4 counterexample: with every chunk reduced to the tier-4 fallback, the
pipeline still backfills one relationship from the import resolver, so the
merged graph does not have zero relationships. -/
theorem analyzeAllFallback_relationships_cex :
    (analyzeAllFallback exCorpus).relationships =
      [⟨"src/a.ts", "src/util.ts", "imports", "medium", "Imports from src/util.ts"⟩] ∧
    (analyzeAllFallback exCorpus).relationships ≠ [] := by decide

/-- C4 amended: when every chunk reduces to the tier-4 fallback, the pipeline
returns a non-empty graph with one module per input file and the Unknown
pattern at confidence 0; the chunks contribute no relationships, every edge in
the result being an `imports` edge backfilled by the import resolver. -/
theorem analyzeAllFallback_amended (files : List FileContext)
    (hN : (files.map FileContext.path).Nodup) :
    (∀ f ∈ files, (((analyzeAllFallback files).modules).map Module.path).count f.path = 1) ∧
    (analyzeAllFallback files).pattern = ⟨"Unknown", 0, "Could not determine pattern"⟩ ∧
    (∀ r ∈ (analyzeAllFallback files).relationships, r.type = "imports") ∧
    (files ≠ [] → (analyzeAllFallback files).modules ≠ []) := by
  refine ⟨?_, ?_, ?_, ?_⟩
  · exact mergeChunkResults_count _ files _ hN
  · have h : (analyzeAllFallback files).pattern =
        mergeBestPattern ((analysisChunks files).map createFallbackAnalysis) := rfl
    rw [h, mergeBestPattern_fallback]
  · have h : (analyzeAllFallback files).relationships =
        inferAllRelationships
          (mergeWithAllFiles (mergeModuleMap ((analysisChunks files).map createFallbackAnalysis))
            files (selectedForAnalysis files))
          files (mergeRelationships ((analysisChunks files).map createFallbackAnalysis)) := rfl
    rw [h, mergeRelationships_fallback]
    exact inferAllRelationships_types_of_empty _ _
  · intro hne hmod
    obtain ⟨f, hf⟩ := List.exists_mem_of_ne_nil files hne
    have hc := mergeChunkResults_count ((analysisChunks files).map createFallbackAnalysis)
      files (selectedForAnalysis files) hN f hf
    have he : (mergeChunkResults ((analysisChunks files).map createFallbackAnalysis)
        files (selectedForAnalysis files)).modules = (analyzeAllFallback files).modules := rfl
    rw [he, hmod] at hc
    simp at hc

/-- Witness for C4 amended on the two-file corpus. -/
theorem analyzeAllFallback_amended_witness :
    (∀ f ∈ exCorpus,
      (((analyzeAllFallback exCorpus).modules).map Module.path).count f.path = 1) ∧
    (analyzeAllFallback exCorpus).pattern = ⟨"Unknown", 0, "Could not determine pattern"⟩ ∧
    (∀ r ∈ (analyzeAllFallback exCorpus).relationships, r.type = "imports") ∧
    (exCorpus ≠ [] → (analyzeAllFallback exCorpus).modules ≠ []) :=
  analyzeAllFallback_amended exCorpus (by decide)

/-- C5: the source appends entry points missed by the top-k slice and then
slices to k again, which removes exactly the appended entry points: on this
two-file corpus with k = 1 the entry point `index.ts` is dropped even though
the claim requires it to be force-included. -/
theorem selectImportantFiles_entry_point_dropped :
    isEntryPointFile exIndexFile = true ∧
    [exServicesFile, exIndexFile].length > 1 ∧
    selectImportantFiles [exServicesFile, exIndexFile] 1 = [exServicesFile] ∧
    exIndexFile.path ∉ (selectImportantFiles [exServicesFile, exIndexFile] 1).map
      FileContext.path := by decide

/-- C6 counterexample: a lone fragment whose pattern is Unknown at confidence
0.3 does not survive the merge; a fixed Unknown at confidence 0 is synthesised
instead of the maximum-confidence fragment pattern. -/
theorem mergedPattern_unknown_cex :
    fragUnknown.pattern.confidence = conf03 ∧
    (mergeChunkResults [fragUnknown] [] []).pattern.confidence = 0 ∧
    (mergeChunkResults [fragUnknown] [] []).pattern ≠ fragUnknown.pattern := by decide

/-- C6 amended: Unknown-named fragment patterns are always discarded; when
none remain the merged pattern is a synthesised Unknown at confidence 0, and
otherwise the merged pattern is the first fragment pattern attaining the
maximum confidence among the non-Unknown ones, in chunk order; the
0.3-Unknown / 0.6-Layered / 0.85-MVC example merges to MVC at 0.85. -/
theorem mergedPattern_amended (chunkResults : List ArchitectureAnalysis)
    (allFiles selectedFiles : List FileContext) :
    (((chunkResults.map (·.pattern)).filter (fun p => p.name ≠ "Unknown")) = [] →
      (mergeChunkResults chunkResults allFiles selectedFiles).pattern =
        ⟨"Unknown", 0, "Could not determine pattern"⟩) ∧
    (∀ h t,
      ((chunkResults.map (·.pattern)).filter (fun p => p.name ≠ "Unknown")) = h :: t →
      ∃ l1 l2, h :: t =
          l1 ++ (mergeChunkResults chunkResults allFiles selectedFiles).pattern :: l2 ∧
        (∀ p ∈ l1, p.confidence <
          (mergeChunkResults chunkResults allFiles selectedFiles).pattern.confidence) ∧
        (∀ p ∈ l2, p.confidence ≤
          (mergeChunkResults chunkResults allFiles selectedFiles).pattern.confidence)) ∧
    (mergeChunkResults [fragUnknown, fragLayered, fragMvc] [] []).pattern =
      ⟨"MVC", conf085, "dm"⟩ := by
  have hpat : (mergeChunkResults chunkResults allFiles selectedFiles).pattern =
      mergeBestPattern chunkResults := rfl
  refine ⟨?_, ?_, by decide⟩
  · intro hnil
    rw [hpat]
    simp only [mergeBestPattern, hnil]
  · intro h t hcons
    rw [hpat]
    simp only [mergeBestPattern, hcons]
    exact foldl_pickBest_decomp t h

/-- Witness for C6 amended: the nonempty branch instantiated on the three
example fragments. -/
theorem mergedPattern_amended_witness :
    ∃ l1 l2,
      [fragLayered.pattern, fragMvc.pattern] =
        l1 ++ (mergeChunkResults [fragUnknown, fragLayered, fragMvc] [] []).pattern :: l2 ∧
      (∀ p ∈ l1, p.confidence <
        (mergeChunkResults [fragUnknown, fragLayered, fragMvc] [] []).pattern.confidence) ∧
      (∀ p ∈ l2, p.confidence ≤
        (mergeChunkResults [fragUnknown, fragLayered, fragMvc] [] []).pattern.confidence) :=
  (mergedPattern_amended [fragUnknown, fragLayered, fragMvc] [] []).2.1
    fragLayered.pattern [fragMvc.pattern] (by decide)

/-- C7 counterexample: four service modules with neutral paths satisfy none of
the claim's four listed rules, yet the classifier returns Layered at 0.6 (its
default-structure rule), not Unknown at 0.3. -/
theorem inferArchitecturalPattern_default_rule_cex :
    svcModulesEx.any layerSignal = false ∧
    svcModulesEx.any controllerSignal = false ∧
    svcModulesEx.any modelSignal = false ∧
    svcModulesEx.any viewSignal = false ∧
    svcModulesEx.any nextSignal = false ∧
    svcModulesEx.any reactSignal = false ∧
    svcModulesEx.any flaskSignal = false ∧
    inferArchitecturalPattern svcModulesEx [] =
      ⟨"Layered", conf06, "Detected layered architecture based on module types and structure"⟩ ∧
    (inferArchitecturalPattern svcModulesEx []).name ≠ "Unknown" := by decide

/-- C7 amended: the classifier applies seven rules first-match-wins — MVC at
0.85; layer diversity or service+model+view at 0.75; Next/React components at
0.7; Flask entry plus routes at 0.7; many services with relationship count
over half the module count at 0.6; more than three modules with any
service/model/view signal at 0.6 (Layered); otherwise Unknown at 0.3. -/
theorem inferArchitecturalPattern_rule_order (ms : List Module) (rs : List Relationship) :
    (MvcCond ms → inferArchitecturalPattern ms rs =
      ⟨"MVC", conf085, "Detected Model-View-Controller pattern with clear separation of concerns"⟩) ∧
    (¬MvcCond ms → LayeredCond ms → inferArchitecturalPattern ms rs =
      ⟨"Layered", conf075,
        "Detected layered architecture with separation of concerns across multiple layers"⟩) ∧
    (¬MvcCond ms → ¬LayeredCond ms → ComponentCond ms → inferArchitecturalPattern ms rs =
      ⟨"Layered", conf07,
        "Detected component-based architecture typical of React/Next.js applications"⟩) ∧
    (¬MvcCond ms → ¬LayeredCond ms → ¬ComponentCond ms → FlaskCond ms →
      inferArchitecturalPattern ms rs =
        ⟨"Layered", conf07, "Detected Flask-based web application with layered structure"⟩) ∧
    (¬MvcCond ms → ¬LayeredCond ms → ¬ComponentCond ms → ¬FlaskCond ms →
      MicroservicesCond ms rs → inferArchitecturalPattern ms rs =
        ⟨"Microservices", conf06,
          "Detected potential microservices architecture with multiple service modules"⟩) ∧
    (¬MvcCond ms → ¬LayeredCond ms → ¬ComponentCond ms → ¬FlaskCond ms →
      ¬MicroservicesCond ms rs → DefaultLayeredCond ms → inferArchitecturalPattern ms rs =
        ⟨"Layered", conf06, "Detected layered architecture based on module types and structure"⟩) ∧
    (¬MvcCond ms → ¬LayeredCond ms → ¬ComponentCond ms → ¬FlaskCond ms →
      ¬MicroservicesCond ms rs → ¬DefaultLayeredCond ms → inferArchitecturalPattern ms rs =
        ⟨"Unknown", conf03,
          "Could not confidently determine architectural pattern from available information"⟩) := by
  have bool1 : ∀ h1 : MvcCond ms,
      (ms.any controllerSignal && ms.any viewSignal && ms.any modelSignal) = true := by
    intro h1
    simp only [Bool.and_eq_true, List.any_eq_true]
    exact ⟨⟨h1.1, h1.2.1⟩, h1.2.2⟩
  have nbool1 : ∀ _ : ¬MvcCond ms,
      (ms.any controllerSignal && ms.any viewSignal && ms.any modelSignal) = false := by
    intro h1
    rw [Bool.eq_false_iff]
    intro hx
    simp only [Bool.and_eq_true, List.any_eq_true] at hx
    exact h1 ⟨hx.1.1, hx.1.2, hx.2⟩
  have bool2 : ∀ _ : LayeredCond ms,
      (ms.any layerSignal || (ms.any serviceSignal && ms.any modelSignal && ms.any viewSignal))
        = true := by
    intro h2
    simp only [Bool.or_eq_true, Bool.and_eq_true, List.any_eq_true]
    rcases h2 with h2 | h2
    · exact Or.inl h2
    · exact Or.inr ⟨⟨h2.1, h2.2.1⟩, h2.2.2⟩
  have nbool2 : ∀ _ : ¬LayeredCond ms,
      (ms.any layerSignal || (ms.any serviceSignal && ms.any modelSignal && ms.any viewSignal))
        = false := by
    intro h2
    rw [Bool.eq_false_iff]
    intro hx
    simp only [Bool.or_eq_true, Bool.and_eq_true, List.any_eq_true] at hx
    rcases hx with hx | hx
    · exact h2 (Or.inl hx)
    · exact h2 (Or.inr ⟨hx.1.1, hx.1.2, hx.2⟩)
  have bool3 : ∀ _ : ComponentCond ms,
      (ms.any nextSignal || (ms.any reactSignal && ms.any componentSignal)) = true := by
    intro h3
    simp only [Bool.or_eq_true, Bool.and_eq_true, List.any_eq_true]
    rcases h3 with h3 | h3
    · exact Or.inl h3
    · exact Or.inr ⟨h3.1, h3.2⟩
  have nbool3 : ∀ _ : ¬ComponentCond ms,
      (ms.any nextSignal || (ms.any reactSignal && ms.any componentSignal)) = false := by
    intro h3
    rw [Bool.eq_false_iff]
    intro hx
    simp only [Bool.or_eq_true, Bool.and_eq_true, List.any_eq_true] at hx
    rcases hx with hx | hx
    · exact h3 (Or.inl hx)
    · exact h3 (Or.inr ⟨hx.1, hx.2⟩)
  have bool4 : ∀ _ : FlaskCond ms, (ms.any flaskSignal && ms.any routeSignal) = true := by
    intro h4
    simp only [Bool.and_eq_true, List.any_eq_true]
    exact ⟨h4.1, h4.2⟩
  have nbool4 : ∀ _ : ¬FlaskCond ms, (ms.any flaskSignal && ms.any routeSignal) = false := by
    intro h4
    rw [Bool.eq_false_iff]
    intro hx
    simp only [Bool.and_eq_true, List.any_eq_true] at hx
    exact h4 ⟨hx.1, hx.2⟩
  have bool5 : ∀ _ : MicroservicesCond ms rs,
      (ms.any serviceSignal && decide (ms.length > 5) &&
        decide (2 * rs.length > ms.length)) = true := by
    intro h5
    simp only [Bool.and_eq_true, List.any_eq_true, decide_eq_true_eq]
    exact ⟨⟨h5.1, h5.2.1⟩, h5.2.2⟩
  have nbool5 : ∀ _ : ¬MicroservicesCond ms rs,
      (ms.any serviceSignal && decide (ms.length > 5) &&
        decide (2 * rs.length > ms.length)) = false := by
    intro h5
    rw [Bool.eq_false_iff]
    intro hx
    simp only [Bool.and_eq_true, List.any_eq_true, decide_eq_true_eq] at hx
    exact h5 ⟨hx.1.1, hx.1.2, hx.2⟩
  have bool6 : ∀ _ : DefaultLayeredCond ms,
      (decide (ms.length > 3) && (ms.any serviceSignal || ms.any modelSignal ||
        ms.any viewSignal)) = true := by
    intro h6
    simp only [Bool.and_eq_true, Bool.or_eq_true, List.any_eq_true, decide_eq_true_eq]
    refine ⟨h6.1, ?_⟩
    rcases h6.2 with h | h | h
    · exact Or.inl (Or.inl h)
    · exact Or.inl (Or.inr h)
    · exact Or.inr h
  have nbool6 : ∀ _ : ¬DefaultLayeredCond ms,
      (decide (ms.length > 3) && (ms.any serviceSignal || ms.any modelSignal ||
        ms.any viewSignal)) = false := by
    intro h6
    rw [Bool.eq_false_iff]
    intro hx
    simp only [Bool.and_eq_true, Bool.or_eq_true, List.any_eq_true, decide_eq_true_eq] at hx
    rcases hx.2 with h | h
    · rcases h with h | h
      · exact h6 ⟨hx.1, Or.inl h⟩
      · exact h6 ⟨hx.1, Or.inr (Or.inl h)⟩
    · exact h6 ⟨hx.1, Or.inr (Or.inr h)⟩
  refine ⟨?_, ?_, ?_, ?_, ?_, ?_, ?_⟩
  · intro h1
    simp [inferArchitecturalPattern, bool1 h1]
  · intro h1 h2
    simp [inferArchitecturalPattern, nbool1 h1, bool2 h2]
  · intro h1 h2 h3
    simp [inferArchitecturalPattern, nbool1 h1, nbool2 h2, bool3 h3]
  · intro h1 h2 h3 h4
    simp [inferArchitecturalPattern, nbool1 h1, nbool2 h2, nbool3 h3, bool4 h4]
  · intro h1 h2 h3 h4 h5
    simp [inferArchitecturalPattern, nbool1 h1, nbool2 h2, nbool3 h3, nbool4 h4, bool5 h5]
  · intro h1 h2 h3 h4 h5 h6
    simp [inferArchitecturalPattern, nbool1 h1, nbool2 h2, nbool3 h3, nbool4 h4, nbool5 h5,
      bool6 h6]
  · intro h1 h2 h3 h4 h5 h6
    simp [inferArchitecturalPattern, nbool1 h1, nbool2 h2, nbool3 h3, nbool4 h4, nbool5 h5,
      nbool6 h6]

/-- Witness for C7 amended: the MVC rule fires on a controller/view/model
module set. -/
theorem inferArchitecturalPattern_rule_order_witness :
    inferArchitecturalPattern mvcModulesEx [] =
      ⟨"MVC", conf085, "Detected Model-View-Controller pattern with clear separation of concerns"⟩ :=
  (inferArchitecturalPattern_rule_order mvcModulesEx []).1 ⟨by decide, by decide, by decide⟩

/-- C8: the resolver maps the relative literal `./util` occurring in
`src/a.ts` to `src/util.ts`, and in general never invents a path — a
resolution is always the path of some corpus file, and no match yields
`none`. -/
theorem resolveImport_spec :
    fsResolveImport "./util" "src/a.ts" exCorpus = some "src/util.ts" ∧
    (∀ (imp fromFile : String) (files : List FileContext) (r : String),
      fsResolveImport imp fromFile files = some r → ∃ f ∈ files, f.path = r) := by
  constructor
  · decide
  · intro imp fromFile files r h
    simp only [fsResolveImport] at h
    split at h
    · obtain ⟨f, hf, he⟩ := Option.map_eq_some'.mp h
      exact ⟨f, List.mem_of_find?_eq_some hf, he⟩
    · obtain ⟨f, hf, he⟩ := Option.map_eq_some'.mp h
      exact ⟨f, List.mem_of_find?_eq_some hf, he⟩

/-- Witness for C8: the general no-invention clause applied to the concrete
resolution of `./util`. -/
theorem resolveImport_spec_witness : ∃ f ∈ exCorpus, f.path = "src/util.ts" :=
  resolveImport_spec.2 "./util" "src/a.ts" exCorpus "src/util.ts" resolveImport_spec.1

/-- C9: `analyze` sends at most `min(10, max(5, n / 10))` files to the
service; above that bound the corpus is down-selected to exactly the bound,
so at most 10 files — at most two chunks of five — ever reach the service. -/
theorem analyze_selection_bound (files : List FileContext) :
    (selectedForAnalysis files).length ≤ maxFilesFor files.length ∧
    (files.length > maxFilesFor files.length →
      (selectedForAnalysis files).length = maxFilesFor files.length) ∧
    (selectedForAnalysis files).length ≤ 10 ∧
    (analysisChunks files).length ≤ 2 := by
  have h1 : (selectedForAnalysis files).length ≤ maxFilesFor files.length ∧
      (files.length > maxFilesFor files.length →
        (selectedForAnalysis files).length = maxFilesFor files.length) := by
    by_cases hgt : files.length > maxFilesFor files.length
    · have hlen : (selectedForAnalysis files).length = maxFilesFor files.length := by
        unfold selectedForAnalysis
        rw [if_pos hgt]
        exact selectImportantFiles_length hgt
      exact ⟨le_of_eq hlen, fun _ => hlen⟩
    · have hlen : selectedForAnalysis files = files := by
        unfold selectedForAnalysis
        rw [if_neg hgt]
      rw [hlen]
      exact ⟨le_of_not_lt hgt, fun hc => absurd hc hgt⟩
  have h10 : (selectedForAnalysis files).length ≤ 10 := by
    refine le_trans h1.1 ?_
    unfold maxFilesFor
    omega
  refine ⟨h1.1, h1.2, h10, ?_⟩
  have hch := chunksOf_length_le (selectedForAnalysis files).length (selectedForAnalysis files)
  have : (analysisChunks files).length =
      (chunksOf (selectedForAnalysis files).length (selectedForAnalysis files)).length := rfl
  rw [this]
  omega

/-- Witness for C9: a twelve-file corpus is down-selected to exactly the
budget `min(10, max(5, 12 / 10)) = 5`. -/
theorem analyze_selection_bound_witness :
    (selectedForAnalysis files12).length = maxFilesFor files12.length :=
  (analyze_selection_bound files12).2.1 (by decide)

/-- C2: for every raw response string and originating file batch, the decoder
returns a structured fragment and never lets an exception escape: every
throwing operation of the source (JSON.parse, string methods or iteration on
non-conforming values, property reads on null) is an `Except.error` in this
embedding, and the try/catch ladder of clean parse, repaired parse, regex
recovery and minimal per-file fallback always ends in `Except.ok`. -/
theorem parseOllamaResponse_never_raises (fullResponse : String) (files : List FileContext) :
    ∃ a, parseOllamaResponse fullResponse files = Except.ok a := by
  unfold parseOllamaResponse
  split
  · exact ⟨_, rfl⟩
  · split
    · exact ⟨_, rfl⟩
    · split
      · exact ⟨_, rfl⟩
      · exact ⟨_, rfl⟩

end CodeAtlas
